import Mathlib

/-!
Verification of the RAG-tool document ingestion and retrieval pipeline.

This file is a shallow embedding of the core modules of the repository:
`src/embed_and_store.py` (chunker, similarity ranking), `src/database.py`
(SQLite document/chunk store), `src/background_processor.py` (job queue and
worker pipeline) and `src/rag_chain.py` (token-budgeted context assembly and
answer modes), together with the configuration constants of `config.py`.

Modelling conventions:
* Machine integers are `Nat`/`Int` (Python ints are unbounded, so no wrap).
* The tiktoken encoder is modelled as the character tokenizer: `tok s`
  is the number of characters of `s`.  The source only ever uses the
  *count* `len(encoding.encode(text))`, never the token values, so any
  deterministic tokenizer instantiates the algorithms; character count
  keeps every definition executable and keeps token counts additive.
* Remote calls (PDF text extraction, per-chunk embedding, chat completion,
  the query-embedding + cosine-similarity step) are black-box collaborators
  in the source; they enter the model as explicit function arguments, and a
  failing call is an `Option`/`Except` `none`/`error` value.
* SQLite tables are association lists of row structures; `INSERT OR IGNORE`,
  `INSERT OR REPLACE`, `UPDATE ... WHERE`, `ORDER BY` are modelled by the
  corresponding list operations.  `CURRENT_TIMESTAMP` columns (`created_at`,
  `processed_at`) are wall-clock values irrelevant to every claim and are
  omitted from the row structures.
-/

/-! ## config.py -/

/-- config.py: CHUNK_SIZE = 1000. -/
def CHUNK_SIZE : Nat := 1000

/-- config.py: CHUNK_OVERLAP = 200. -/
def CHUNK_OVERLAP : Nat := 200

/-- config.py: TOP_K_CHUNKS = 5. -/
def TOP_K_CHUNKS : Nat := 5

/-- config.py: MAX_CONTEXT_TOKENS = 8000. -/
def MAX_CONTEXT_TOKENS : Nat := 8000

/-- config.py: MAX_RESPONSE_TOKENS = 1500. -/
def MAX_RESPONSE_TOKENS : Nat := 1500

/-! ## Tokenizer model and Python string primitives

Core `String.splitOn`, `String.trim`, `String.take` are defined by
position-based well-founded recursion, which the kernel cannot evaluate;
the Python string primitives the source uses are therefore modelled by
structurally recursive functions on the character list of the string,
with the same semantics. -/

/-- Model of `len(self.encoding.encode(s))`: the tiktoken encoder is
instantiated as the character-level tokenizer, so a token count is a
character count. -/
def tok (s : String) : Nat := s.data.length

/-- Left-to-right non-overlapping split on the two-character delimiter
`". "`, exactly Python `s.split('. ')`: splitting the empty string gives
`[""]`, and adjacent delimiters give empty segments. -/
def splitDotSpace : List Char → List (List Char)
  | [] => [[]]
  | '.' :: ' ' :: rest => [] :: splitDotSpace rest
  | c :: rest =>
    match splitDotSpace rest with
    | seg :: segs => (c :: seg) :: segs
    | [] => [[c]]

/-- Python `s.split('. ')` on a `String`. -/
def pySplitDot (s : String) : List String :=
  (splitDotSpace s.data).map String.mk

/-- Python `s.strip()`: remove leading and trailing whitespace. -/
def pyStrip (s : String) : String :=
  String.mk (((s.data.dropWhile Char.isWhitespace).reverse.dropWhile
    Char.isWhitespace).reverse)

/-- Python `sep.join(l)`. -/
def pyJoin (sep : String) : List String → String
  | [] => ""
  | [x] => x
  | x :: xs => x ++ sep ++ pyJoin sep xs

/-- Python `s[:n]` for `0 ≤ n`: the first `n` characters. -/
def pySlice (s : String) (n : Nat) : String :=
  String.mk (s.data.take n)

/-! ## embed_and_store.py - DocumentEmbedder.chunk_text -/

/-- One element of the list returned by `DocumentEmbedder.chunk_text`
(a Python dict with keys chunk_id, text, token_count, start_sentence,
end_sentence).  The sentence indices are Python ints and can be negative
(e.g. `i - 1` at `i = 0`), hence `Int`. -/
structure ChunkRec where
  chunk_id : Nat
  text : String
  token_count : Nat
  start_sentence : Int
  end_sentence : Int
deriving Repr, DecidableEq

/-- Python `x or default` for an optional int argument: `None` and `0` are
both falsy and resolve to the default. -/
def pyOr (x : Option Nat) (d : Nat) : Nat :=
  match x with
  | none => d
  | some v => if v = 0 then d else v

/-- Loop state of `chunk_text`: accumulated chunks, `current_chunk`,
`current_tokens`, `chunk_id`. -/
structure ChunkState where
  chunks : List ChunkRec
  current_chunk : String
  current_tokens : Nat
  chunk_id : Nat
deriving Repr, DecidableEq

/-- Body of the `for i, sentence in enumerate(sentences)` loop of
`chunk_text` (embed_and_store.py lines 91-109). -/
def chunkStep (chunk_size overlap : Nat) (st : ChunkState) (is' : Nat × String) :
    ChunkState :=
  let i := is'.1
  let sentence := is'.2
  let sentence_tokens := tok sentence
  if st.current_tokens + sentence_tokens > chunk_size ∧ st.current_chunk ≠ "" then
    let parts := pySplitDot st.current_chunk
    let closed : ChunkRec :=
      { chunk_id := st.chunk_id
        text := pyStrip st.current_chunk
        token_count := st.current_tokens
        start_sentence := (i : Int) - (parts.length : Int) + 1
        end_sentence := (i : Int) - 1 }
    -- current_chunk.split('. ')[-max(1, overlap // 50):]
    let keep := max 1 (overlap / 50)
    let overlap_sentences := parts.drop (parts.length - keep)
    let current_chunk := pyJoin ". " overlap_sentences ++ ". " ++ sentence ++ ". "
    { chunks := st.chunks ++ [closed]
      current_chunk := current_chunk
      current_tokens := tok current_chunk
      chunk_id := st.chunk_id + 1 }
  else
    { st with
      current_chunk := st.current_chunk ++ sentence ++ ". "
      current_tokens := st.current_tokens + sentence_tokens }

/-- `DocumentEmbedder.chunk_text(text, chunk_size=None, overlap=None)`
(embed_and_store.py lines 57-120).  `text.split('. ')` is `splitOn ". "`,
`.strip()` is `String.trim`, Python truthiness of a string is `≠ ""`. -/
def chunk_text (text : String) (chunk_size? overlap? : Option Nat) : List ChunkRec :=
  let chunk_size := pyOr chunk_size? CHUNK_SIZE
  let overlap := pyOr overlap? CHUNK_OVERLAP
  let sentences := pySplitDot text
  let final := sentences.enum.foldl (chunkStep chunk_size overlap)
    { chunks := [], current_chunk := "", current_tokens := 0, chunk_id := 0 }
  if pyStrip final.current_chunk ≠ "" then
    final.chunks ++
      [{ chunk_id := final.chunk_id
         text := pyStrip final.current_chunk
         token_count := final.current_tokens
         start_sentence := (sentences.length : Int) -
           ((pySplitDot final.current_chunk).length : Int)
         end_sentence := (sentences.length : Int) - 1 }]
  else
    final.chunks

/-! ## database.py - DocumentDatabase

The two SQLite tables are modelled as lists of row structures.  The
`chunks.id` autoincrement column is never read by the program and is
omitted; `created_at` / `processed_at` timestamps are wall-clock values
never used by any claim and are omitted. -/

/-- A row of the `documents` table (database.py lines 62-76). -/
structure DocRow where
  id : Nat
  filename : String
  file_hash : String
  original_path : String
  file_size : Nat
  num_pages : Nat
  total_chunks : Option Nat
  status : String
  error_message : Option String
deriving Repr, DecidableEq

/-- A row of the `chunks` table (database.py lines 78-92).  The embedding
BLOB is an optional vector; vector components are rationals (the numeric
values are opaque to every claim). -/
structure ChunkRow where
  document_id : Nat
  chunk_id : Nat
  text : String
  token_count : Nat
  start_sentence : Int
  end_sentence : Int
  embedding : Option (List ℚ)
deriving Repr, DecidableEq

/-- The database state: both tables plus the autoincrement counter of
`documents.id`. -/
structure DB where
  documents : List DocRow
  chunks : List ChunkRow
  next_doc_id : Nat
deriving Repr, DecidableEq

/-- `DocumentDatabase.get_file_hash` computes the MD5 hex digest of the
file's bytes.  MD5 is modelled as the identity on the byte content: the
program only relies on the hash being a deterministic function of the
bytes. -/
def md5 (bytes : String) : String := bytes

/-- `DocumentDatabase.add_document` (database.py lines 115-147):
`INSERT OR IGNORE` inserts a fresh `pending` row unless some row already
has the same `file_hash` (UNIQUE column); on conflict the existing row's
id is selected and returned and no write happens.  Returns the document
id and the new database state.  `content` is the byte content of the file
at `file_path`, from which the hash is computed. -/
def add_document (db : DB) (filename file_path : String)
    (file_size num_pages : Nat) (content : String) : Nat × DB :=
  let file_hash := md5 content
  match db.documents.find? (fun d => d.file_hash = file_hash) with
  | some d => (d.id, db)
  | none =>
    let row : DocRow :=
      { id := db.next_doc_id
        filename := filename
        file_hash := file_hash
        original_path := file_path
        file_size := file_size
        num_pages := num_pages
        total_chunks := none
        status := "pending"
        error_message := none }
    (db.next_doc_id,
      { db with
        documents := db.documents ++ [row]
        next_doc_id := db.next_doc_id + 1 })

/-- `DocumentDatabase.update_document_status` (database.py lines 149-173):
`UPDATE documents SET status, error_message WHERE id = doc_id`.  A missing
row makes this a no-op (0 rows updated, no error). -/
def update_document_status (db : DB) (doc_id : Nat) (status : String)
    (error_message : Option String) : DB :=
  { db with
    documents := db.documents.map fun d =>
      if d.id = doc_id then { d with status := status, error_message := error_message }
      else d }

/-- An element of the `chunks` list passed to `add_chunks`: a chunk dict
from `chunk_text` with an optional `embedding` key attached. -/
structure EmbChunk where
  chunk : ChunkRec
  embedding : Option (List ℚ)
deriving Repr, DecidableEq

/-- The `chunks` table row produced for one element of the `add_chunks`
batch (the tuple of database.py lines 199-211). -/
def chunkToRow (doc_id : Nat) (c : EmbChunk) : ChunkRow :=
  { document_id := doc_id
    chunk_id := c.chunk.chunk_id
    text := c.chunk.text
    token_count := c.chunk.token_count
    start_sentence := c.chunk.start_sentence
    end_sentence := c.chunk.end_sentence
    embedding := c.embedding }

/-- One `INSERT OR REPLACE INTO chunks` statement: on a
`(document_id, chunk_id)` UNIQUE conflict the old row is deleted and the
new row inserted. -/
def insertOrReplaceChunk (rows : List ChunkRow) (doc_id : Nat) (c : EmbChunk) :
    List ChunkRow :=
  rows.filter (fun r => ¬ (r.document_id = doc_id ∧ r.chunk_id = c.chunk.chunk_id)) ++
    [chunkToRow doc_id c]

/-- `DocumentDatabase.add_chunks` (database.py lines 175-220): insert every
chunk, then `UPDATE documents SET total_chunks = (SELECT COUNT(*) ...)`.
SQLite does not enforce the declared foreign key by default, so the
inserts succeed even when no `documents` row with `doc_id` exists. -/
def add_chunks (db : DB) (doc_id : Nat) (cs : List EmbChunk) : DB :=
  let chunks' := cs.foldl (fun acc c => insertOrReplaceChunk acc doc_id c) db.chunks
  let count := (chunks'.filter (fun r => r.document_id = doc_id)).length
  { db with
    chunks := chunks'
    documents := db.documents.map fun d =>
      if d.id = doc_id then { d with total_chunks := some count } else d }

/-- `DocumentDatabase.get_document_by_id` (database.py lines 222-240). -/
def get_document_by_id (db : DB) (doc_id : Nat) : Option DocRow :=
  db.documents.find? (fun d => d.id = doc_id)

/-- Stable insertion (ascending by `chunk_id`) used to model `ORDER BY
chunk_id`. -/
def insertByChunkId (r : ChunkRow) : List ChunkRow → List ChunkRow
  | [] => [r]
  | x :: xs => if r.chunk_id < x.chunk_id then r :: x :: xs else x :: insertByChunkId r xs

/-- Ascending sort by `chunk_id` (insertion sort; `(document_id, chunk_id)`
is UNIQUE so within one document any correct sort gives the same list). -/
def sortByChunkId (rows : List ChunkRow) : List ChunkRow :=
  rows.foldl (fun acc r => insertByChunkId r acc) []

/-- `DocumentDatabase.get_chunks_df` (database.py lines 266-317):
`SELECT ... FROM chunks WHERE document_id = ? ORDER BY chunk_id`.  The
resulting DataFrame is modelled as the ordered list of rows. -/
def get_chunks_df (db : DB) (doc_id : Nat) : List ChunkRow :=
  sortByChunkId (db.chunks.filter (fun r => r.document_id = doc_id))

/-- `DocumentDatabase.delete_document` (database.py lines 319-331): delete
the chunk rows, then the document row. -/
def delete_document_db (db : DB) (doc_id : Nat) : DB :=
  { db with
    chunks := db.chunks.filter (fun r => ¬ r.document_id = doc_id)
    documents := db.documents.filter (fun d => ¬ d.id = doc_id) }

/-! ## background_processor.py - BackgroundProcessor

The processor's in-memory state is the database, the FIFO job queue and
the progress-callback registry.  Callbacks are opaque functions; the
registry is modelled as the list of document ids that have a registered
callback, and a progress notification is modelled as an event value. -/

/-- A job dict put on `job_queue` (background_processor.py lines 297-301). -/
structure Job where
  document_id : Nat
  file_path : String
  filename : String
deriving Repr, DecidableEq

/-- In-memory processor state. -/
structure PState where
  db : DB
  job_queue : List Job
  progress_callbacks : List Nat
deriving Repr, DecidableEq

/-- One `_notify_progress` call: document id, coarse status, percentage,
message (background_processor.py lines 232-246).  Delivery filters on the
registry and never alters the values, so the claims are stated on the
sequence of calls. -/
structure Event where
  doc_id : Nat
  status : String
  progress : Nat
  message : String
deriving Repr, DecidableEq

/-- The per-chunk embedding loop of `_process_job` (background_processor.py
lines 189-210): embed each chunk independently; a failing call (`none`) is
logged and skipped (`continue`), a succeeding one appends the chunk with
its embedding and emits a progress event `40 + int((i+1)/len(chunks)*50)`.
`embed i text` is the black-box `client.embeddings.create` call for chunk
index `i`.  Returns the surviving chunks and the emitted events. -/
def embedLoop (embed : Nat → String → Option (List ℚ)) (doc_id : Nat)
    (n : Nat) (chunks : List (Nat × ChunkRec)) : List EmbChunk × List Event :=
  match chunks with
  | [] => ([], [])
  | (i, c) :: rest =>
    let r := embedLoop embed doc_id n rest
    match embed i c.text with
    | some v =>
      (⟨c, some v⟩ :: r.1,
        { doc_id := doc_id
          status := "processing"
          progress := 40 + (i + 1) * 50 / n
          message := "Generated embedding " ++ toString (i + 1) ++ "/" ++ toString n } :: r.2)
    | none => r

/-- `BackgroundProcessor._process_job` (background_processor.py lines
147-230).  `fs` models the filesystem (`open(file_path, 'rb')` yields the
byte content or fails), `loadPdf` models `PDFLoader.load_pdf` on those
bytes (returns `""` on extraction failure, per pdf_loader.py), `embed`
models the per-chunk embedding call.  Returns the new state and the
sequence of `_notify_progress` calls.  The trailing `except` branch sets
status `failed` with the exception message and emits a terminal event with
percentage 0. -/
def process_job (st : PState) (fs : String → Option String)
    (loadPdf : String → String) (embed : Nat → String → Option (List ℚ))
    (job : Job) : PState × List Event :=
  let doc_id := job.document_id
  let db0 := update_document_status st.db doc_id "processing" none
  let ev0 : Event := ⟨doc_id, "processing", 0, "Starting document processing..."⟩
  let ev10 : Event := ⟨doc_id, "processing", 10, "Loading PDF..."⟩
  let fail := fun (db : DB) (evs : List Event) (msg : String) =>
    ({ st with db := update_document_status db doc_id "failed" (some msg) },
      evs ++ [⟨doc_id, "failed", 0, "Processing failed: " ++ msg⟩])
  match fs job.file_path with
  | none => fail db0 [ev0, ev10] "file open failed"
  | some bytes =>
    let document_text := loadPdf bytes
    if document_text = "" then
      fail db0 [ev0, ev10] "Failed to extract text from PDF"
    else
      let ev30 : Event := ⟨doc_id, "processing", 30, "Chunking text..."⟩
      let chunks := chunk_text document_text none none
      let ev40 : Event := ⟨doc_id, "processing", 40,
        "Generating embeddings for " ++ toString chunks.length ++ " chunks..."⟩
      let er := embedLoop embed doc_id chunks.length chunks.enum
      if er.1 = [] then
        fail db0 ([ev0, ev10, ev30, ev40] ++ er.2) "Failed to generate any embeddings"
      else
        let ev90 : Event := ⟨doc_id, "processing", 90, "Saving to database..."⟩
        let db1 := add_chunks db0 doc_id er.1
        let db2 := update_document_status db1 doc_id "completed" none
        let ev100 : Event := ⟨doc_id, "completed", 100,
          "Processing complete! Generated " ++ toString er.1.length ++ " embeddings."⟩
        ({ st with db := db2 },
          [ev0, ev10, ev30, ev40] ++ er.2 ++ [ev90, ev100])

/-- Python `os.path.basename`. -/
def basename (p : String) : String :=
  match (p.data.splitOn '/' |>.getLast?) with
  | some l => String.mk l
  | none => p

/-- `BackgroundProcessor.queue_document` (background_processor.py lines
248-306).  `fs` models `os.path.exists`/file reads, `pdfPages` models
`PDFLoader.get_document_info(...)['num_pages']` on the byte content.
`has_callback` records whether a `progress_callback` argument was passed.
On success returns the document id and the new state; a missing file
raises (`Except.error`).  When the document already has status
`completed`, the method returns immediately: no job is queued and no
callback registered (the callback, when present, is invoked once
directly, which does not change the state). -/
def queue_document (st : PState) (fs : String → Option String)
    (pdfPages : String → Nat) (file_path : String) (filename? : Option String)
    (has_callback : Bool) : Except String (Nat × PState) :=
  match fs file_path with
  | none => .error ("File not found: " ++ file_path)
  | some content =>
    let filename := filename?.getD (basename file_path)
    let file_size := tok content
    let num_pages := pdfPages content
    let (doc_id, db1) := add_document st.db filename file_path file_size num_pages content
    let already_completed : Bool :=
      match get_document_by_id db1 doc_id with
      | some doc => doc.status == "completed"
      | none => false
    if already_completed then
      .ok (doc_id, { st with db := db1 })
    else
      .ok (doc_id,
        { db := db1
          job_queue := st.job_queue ++
            [{ document_id := doc_id, file_path := file_path, filename := filename }]
          progress_callbacks :=
            if has_callback then st.progress_callbacks ++ [doc_id]
            else st.progress_callbacks })

/-- `BackgroundProcessor.delete_document` (background_processor.py lines
353-367): deregister the progress callback, then delete the database
rows. -/
def delete_document (st : PState) (doc_id : Nat) : PState :=
  { st with
    progress_callbacks := st.progress_callbacks.filter (fun i => ¬ i = doc_id)
    db := delete_document_db st.db doc_id }

/-! ## embed_and_store.py - DocumentEmbedder.find_similar_chunks

The remote query-embedding call plus `cosine_similarity` is a black-box
numeric step excluded from the core (floating point); it enters the model
as the optional list `sims?` of per-row similarity scores (`none` models
the exception path: remote failure, or `np.vstack` on an empty frame).
Lines 221-247, the ranking/selection/ordering logic the claims are about,
are translated exactly.  `np.argsort` is modelled as the deterministic
stable ascending argsort (equal values keep positional order), which is
its observed behaviour on the arrays of interest. -/

/-- A row of the `embeddings_df` DataFrame handed to
`find_similar_chunks` (produced by `get_chunks_df`). -/
structure DfRow where
  chunk_id : Nat
  text : String
  token_count : Nat
deriving Repr, DecidableEq

/-- A result dict of `find_similar_chunks`: chunk_id, text, similarity,
token_count (embed_and_store.py lines 240-245). -/
structure RChunk where
  chunk_id : Nat
  text : String
  similarity : ℚ
  token_count : Nat
deriving Repr, DecidableEq

/-- Insert position `i` into an ascending-by-similarity index list,
after every position with similarity `≤ sims[i]` (stable). -/
def insIdxAsc (sims : List ℚ) (i : Nat) : List Nat → List Nat
  | [] => [i]
  | j :: js =>
    if sims.getD i 0 < sims.getD j 0 then i :: j :: js
    else j :: insIdxAsc sims i js

/-- Stable ascending argsort of the similarity array: the model of
`np.argsort(similarities)`. -/
def argsortAsc (sims : List ℚ) : List Nat :=
  (List.range sims.length).foldl (fun acc i => insIdxAsc sims i acc) []

/-- `np.argsort(similarities)[::-1][:top_k]` (line 221). -/
def topIndices (sims : List ℚ) (top_k : Nat) : List Nat :=
  (argsortAsc sims).reverse.take top_k

/-- Neighbor lookup for one selected position (lines 226-235): the
positional indices of the rows whose `chunk_id` is one less / one more
than the selected row's `chunk_id` (`.index[0]` of the boolean filter is
the first matching position of the RangeIndex). -/
def neighborIdxs (df : List DfRow) (idx : Nat) : List Nat :=
  let c := (df.getD idx ⟨0, "", 0⟩).chunk_id
  (match df.findIdx? (fun r => r.chunk_id + 1 = c) with
   | some j => [j]
   | none => []) ++
  (match df.findIdx? (fun r => r.chunk_id = c + 1) with
   | some j => [j]
   | none => [])

/-- The `selected_chunks` set: top-k positions plus, when
`include_neighbors`, the neighbor positions of each top-k position.
Represented as a list with membership as the set semantics. -/
def selectedIdxs (sims : List ℚ) (df : List DfRow) (top_k : Nat)
    (include_neighbors : Bool) : List Nat :=
  let top := topIndices sims top_k
  top ++ (if include_neighbors then
    top.foldl (fun acc idx => acc ++ neighborIdxs df idx) []
  else [])

/-- `for idx in sorted(selected_chunks)`: the ascending enumeration of
the distinct selected positions (all are `< df.length`). -/
def sortedSelected (n : Nat) (sel : List Nat) : List Nat :=
  (List.range n).filter (fun i => sel.contains i)

/-- Stable insertion for Python `sorted(results, key=similarity,
reverse=True)`: a later element goes after every earlier element with
similarity `≥` its own. -/
def insSimDesc (x : RChunk) : List RChunk → List RChunk
  | [] => [x]
  | y :: ys => if y.similarity < x.similarity then x :: y :: ys else y :: insSimDesc x ys

/-- Python `sorted(results, key=lambda x: x['similarity'], reverse=True)`
(line 247): stable descending sort by similarity. -/
def pySortSimDesc (l : List RChunk) : List RChunk :=
  l.foldl (fun acc x => insSimDesc x acc) []

/-- The ranking/selection/ordering portion of `find_similar_chunks`
(embed_and_store.py lines 221-247), given the similarity scores. -/
def find_similar_rank (sims : List ℚ) (df : List DfRow) (top_k : Nat)
    (include_neighbors : Bool) : List RChunk :=
  let results := (sortedSelected df.length
      (selectedIdxs sims df top_k include_neighbors)).map fun idx =>
    let r := df.getD idx ⟨0, "", 0⟩
    { chunk_id := r.chunk_id
      text := r.text
      similarity := sims.getD idx 0
      token_count := r.token_count }
  pySortSimDesc results

/-- `DocumentEmbedder.find_similar_chunks` (lines 210-251): the whole
`try` block returns `[]` via the `except` handler when the remote
query-embedding call fails or the frame is empty (`np.vstack` raises). -/
def find_similar_chunks (sims? : Option (List ℚ)) (df : List DfRow)
    (top_k : Nat) (include_neighbors : Bool) : List RChunk :=
  if df.isEmpty then []
  else
    match sims? with
    | none => []
    | some sims => find_similar_rank sims df top_k include_neighbors

/-! ## rag_chain.py - RAGChain -/

/-- `self.max_context_tokens = config.MAX_CONTEXT_TOKENS - 2000`
(rag_chain.py line 64). -/
def rag_max_context_tokens : Int := (MAX_CONTEXT_TOKENS : Int) - 2000

/-- The grounding system prompt, byte-identical in `generate_answer`
(lines 100-108) and `_limit_context_tokens` (lines 176-184). -/
def systemPromptRAG : String := "You are an expert assistant for analyzing government documents and legislation. \n        Your task is to answer questions based solely on the provided document context.\n        \n        Guidelines:\n        1. Only use information from the provided context\n        2. Include specific citations with chunk IDs for all claims\n        3. If the context doesn\x27t contain enough information, say so\n        4. Be precise and factual\n        5. For legislation, focus on specific provisions, sections, and requirements"

/-- Three-digit zero-padded rendering of `n < 1000`. -/
def pad3 (n : Nat) : String :=
  if n < 10 then "00" ++ toString n
  else if n < 100 then "0" ++ toString n
  else toString n

/-- Python `f"{q:.3f}"` for the similarity value, modelled with
round-half-up at the third decimal: `m = ⌊1000q + 1/2⌋`, computed directly
on the numerator and denominator (the format only ever feeds the header's
character count). -/
def fmt3 (q : ℚ) : String :=
  let m : Int := Int.fdiv (2000 * q.num + q.den) (2 * q.den)
  toString (m / 1000) ++ "." ++ pad3 (m % 1000).natAbs

/-- `f"[Chunk {chunk_id}] (Similarity: {similarity:.3f})"` (lines 194 and
229; every chunk dict reaching this point carries a similarity). -/
def chunkHeader (c : RChunk) : String :=
  "[Chunk " ++ toString c.chunk_id ++ "] (Similarity: " ++ fmt3 c.similarity ++ ")"

/-- `f"{chunk_header}\n{chunk['text']}\n\n"`, the string whose token count
is charged for a chunk in `_limit_context_tokens` (line 195). -/
def chunkBlock (c : RChunk) : String :=
  chunkHeader c ++ "\n" ++ c.text ++ "\n\n"

/-- `RAGChain._build_context` (lines 216-232):
`"\n".join(f"{header}\n{text}\n" for chunk)`. -/
def build_context (chunks : List RChunk) : String :=
  pyJoin "\n" (chunks.map fun c => chunkHeader c ++ "\n" ++ c.text ++ "\n")

/-- The truncation loop of `_limit_context_tokens` (lines 206-207):
`while len(encode(text)) > remaining and len(text) > 100: text =
text[:int(len(text)*0.8)]` (the float multiply-truncate is `4*n/5` on
naturals). -/
def truncateLoop (text : String) (remaining : Int) : String :=
  if h : (tok text : Int) > remaining ∧ tok text > 100 then
    truncateLoop (pySlice text (tok text * 4 / 5)) remaining
  else text
termination_by tok text
decreasing_by
  have hms : tok (pySlice text (tok text * 4 / 5)) = min (tok text * 4 / 5) (tok text) := by
    show (List.take (tok text * 4 / 5) text.data).length = _
    simp [tok, List.length_take]
  rw [hms]
  omega

/-- The packing loop of `_limit_context_tokens` (lines 193-212): greedily
keep whole chunks that fit; at the first chunk that does not fit, either
append a truncated copy (when more than 200 tokens of room remain beyond
the header and a 50-token allowance) or nothing, and stop. -/
def limitLoop (available : Int) : List RChunk → Nat → List RChunk
  | [], _ => []
  | c :: rest, current =>
    let chunk_tokens := tok (chunkBlock c)
    if (current : Int) + chunk_tokens ≤ available then
      c :: limitLoop available rest (current + chunk_tokens)
    else
      let remaining : Int := available - current - (tok (chunkHeader c) : Int) - 50
      if remaining > 200 then
        let truncated := truncateLoop c.text remaining
        [{ c with text := truncated ++ "... [truncated]" }]
      else []

/-- `RAGChain._limit_context_tokens` (lines 159-214): base token usage is
system prompt + query + a 100-token formatting allowance; the available
budget is `self.max_context_tokens - base_tokens` (an `Int`: it can be
negative for an oversized query). -/
def limit_context_tokens (chunks : List RChunk) (query : String) : List RChunk :=
  let base_tokens := tok systemPromptRAG + tok query + 100
  let available : Int := rag_max_context_tokens - base_tokens
  limitLoop available chunks 0

/-- A chat-completion response (`response.choices[0].message.content` and
`response.usage`). -/
structure ChatResponse where
  content : String
  prompt_tokens : Nat
  completion_tokens : Nat
  total_tokens : Nat
deriving Repr, DecidableEq

/-- A value of one of the result dicts of rag_chain.py. -/
inductive RVal where
  | vStr : String → RVal
  | vNat : Nat → RVal
  | vNone : RVal
  | vCits : List RChunk → RVal
deriving Repr, DecidableEq

/-- A result dict: ordered association list of field names to values. -/
abbrev RDict := List (String × RVal)

/-- Python `model` argument rendered into the result dict (`None` when the
caller did not pass one). -/
def optStr : Option String → RVal
  | none => RVal.vNone
  | some s => RVal.vStr s

/-- `RAGChain.generate_answer` (rag_chain.py lines 66-157).  `chat` is the
black-box chat-completion call (`Except.error` models the exception
path), `elapsed` the measured wall-clock seconds.  Both branches return a
nine-field dict. -/
def generate_answer (query : String) (relevant_chunks : List RChunk)
    (model? : Option String) (chat : Except String ChatResponse)
    (elapsed : Nat) : RDict :=
  let limited := limit_context_tokens relevant_chunks query
  let context := build_context limited
  match chat with
  | .ok resp =>
    [("answer", .vStr resp.content),
     ("model_used", optStr model?),
     ("chunks_used", .vNat limited.length),
     ("context_tokens", .vNat (tok context)),
     ("citations", .vCits limited),
     ("response_time", .vNat elapsed),
     ("prompt_tokens", .vNat resp.prompt_tokens),
     ("completion_tokens", .vNat resp.completion_tokens),
     ("total_tokens", .vNat resp.total_tokens)]
  | .error e =>
    [("answer", .vStr ("Error generating response: " ++ e)),
     ("model_used", optStr model?),
     ("chunks_used", .vNat 0),
     ("context_tokens", .vNat 0),
     ("citations", .vCits []),
     ("response_time", .vNat elapsed),
     ("prompt_tokens", .vNat 0),
     ("completion_tokens", .vNat 0),
     ("total_tokens", .vNat 0)]

/-- `RAGChain.answer_question` (lines 234-264): retrieve, and on an empty
result return the five-field "insufficient information" dict without
calling the generation backend; otherwise delegate to `generate_answer`
(with `model=None`). -/
def answer_question (query : String) (df : List DfRow)
    (sims? : Option (List ℚ)) (top_k : Nat) (include_neighbors : Bool)
    (chat : Except String ChatResponse) (elapsed : Nat) : RDict :=
  let relevant_chunks := find_similar_chunks sims? df top_k include_neighbors
  if relevant_chunks = [] then
    [("answer", .vStr "I couldn\x27t find relevant information in the document to answer your question."),
     ("model_used", .vStr "N/A"),
     ("chunks_used", .vNat 0),
     ("context_tokens", .vNat 0),
     ("citations", .vCits [])]
  else
    generate_answer query relevant_chunks none chat elapsed

/-- `RAGChain.generate_non_rag_answer` (lines 266-334): both branches
return a six-field dict (no chunks_used, context_tokens or citations). -/
def generate_non_rag_answer (query : String) (model? : Option String)
    (chat : Except String ChatResponse) (elapsed : Nat) : RDict :=
  match chat with
  | .ok resp =>
    [("answer", .vStr resp.content),
     ("model_used", optStr model?),
     ("response_time", .vNat elapsed),
     ("prompt_tokens", .vNat resp.prompt_tokens),
     ("completion_tokens", .vNat resp.completion_tokens),
     ("total_tokens", .vNat resp.total_tokens)]
  | .error e =>
    [("answer", .vStr ("Error generating response: " ++ e)),
     ("model_used", optStr model?),
     ("response_time", .vNat elapsed),
     ("prompt_tokens", .vNat 0),
     ("completion_tokens", .vNat 0),
     ("total_tokens", .vNat 0)]

/-- `RAGChain.generate_hybrid_answer` (lines 380-486): on empty retrieval
degrade to `generate_non_rag_answer`; otherwise both branches return the
nine uniform fields plus a `mode` field. -/
def generate_hybrid_answer (query : String) (df : List DfRow)
    (sims? : Option (List ℚ)) (top_k : Nat) (include_neighbors : Bool)
    (model? : Option String) (chat : Except String ChatResponse)
    (elapsed : Nat) : RDict :=
  let relevant_chunks := find_similar_chunks sims? df top_k include_neighbors
  if relevant_chunks = [] then
    generate_non_rag_answer query model? chat elapsed
  else
    let limited := limit_context_tokens relevant_chunks query
    let context := build_context limited
    match chat with
    | .ok resp =>
      [("answer", .vStr resp.content),
       ("model_used", optStr model?),
       ("chunks_used", .vNat limited.length),
       ("context_tokens", .vNat (tok context)),
       ("citations", .vCits limited),
       ("response_time", .vNat elapsed),
       ("prompt_tokens", .vNat resp.prompt_tokens),
       ("completion_tokens", .vNat resp.completion_tokens),
       ("total_tokens", .vNat resp.total_tokens),
       ("mode", .vStr "hybrid")]
    | .error e =>
      [("answer", .vStr ("Error generating response: " ++ e)),
       ("model_used", optStr model?),
       ("chunks_used", .vNat 0),
       ("context_tokens", .vNat 0),
       ("citations", .vCits []),
       ("response_time", .vNat elapsed),
       ("prompt_tokens", .vNat 0),
       ("completion_tokens", .vNat 0),
       ("total_tokens", .vNat 0),
       ("mode", .vStr "hybrid")]

/-! ## Helper lemmas -/

set_option maxRecDepth 16000

/-- Character count of the grounding system prompt. -/
theorem tok_systemPromptRAG : tok systemPromptRAG = 511 := by decide

/-- Token count of a string built from an explicit character list. -/
theorem tok_mk (l : List Char) : tok (String.mk l) = l.length := rfl

/-- With a negative available budget, the packing loop keeps nothing:
no whole chunk fits and the truncation headroom test fails. -/
theorem limitLoop_of_neg (available : Int) (h : available < 0) :
    ∀ (l : List RChunk) (current : Nat), limitLoop available l current = [] := by
  intro l current
  cases l with
  | nil => rfl
  | cons c rest =>
    have h1 : ¬ ((current : Int) + (tok (chunkBlock c) : Nat) ≤ available) := by
      omega
    have h2 : ¬ (available - (current : Int) - (tok (chunkHeader c) : Nat) - 50 > 200) := by
      omega
    simp only [limitLoop, h1, if_false, h2]

/-! ## C1 - deleting a queued document before the worker dequeues its job -/

/-- C1: the claim states that a worker dequeuing a job whose document
record was deleted detects the missing record and no-ops, persisting no
chunk records for the deleted id.  The code has no such check: evaluated
on a job for deleted document id 1 (the file still on disk, extraction
and embedding succeeding), `_process_job` runs the whole pipeline, its
status updates match no row, and `add_chunks` persists an orphan chunk
row for id 1 (SQLite does not enforce the declared foreign key by
default).  The document table stays empty while a chunk row for id 1 is
created, contradicting the claim. -/
theorem C1_deleted_document_orphan_chunks :
    (process_job ⟨⟨[], [], 2⟩, [], []⟩
        (fun p => if p = "f.pdf" then some "T" else none) (fun b => b)
        (fun _ _ => some [1]) ⟨1, "f.pdf", "f.pdf"⟩).1.db.documents = [] ∧
    ((process_job ⟨⟨[], [], 2⟩, [], []⟩
        (fun p => if p = "f.pdf" then some "T" else none) (fun b => b)
        (fun _ _ => some [1]) ⟨1, "f.pdf", "f.pdf"⟩).1.db.chunks.map
      (fun r => r.document_id)) = [1] := by decide

/-! ## C5 - empty or whitespace-only input to chunk_text -/

/-- C5: the claim states that empty or whitespace-only input yields zero
chunks.  Evaluating `chunk_text` on `""` and on `" "` shows the code
instead returns exactly one degenerate chunk whose text is the delimiter
residue `"."` (with `token_count` 0 resp. 1 and `start_sentence` -1):
the loop unconditionally appends `". "` to the buffer, which survives
`strip()`. -/
theorem C5_empty_input_yields_one_chunk :
    chunk_text "" none none = [⟨0, ".", 0, -1, 0⟩] ∧
    chunk_text " " none none = [⟨0, ".", 1, -1, 0⟩] ∧
    chunk_text "" none none ≠ [] := by decide

/-! ## C10 - zero chunk_size / overlap arguments resolve to the defaults -/

/-- C10: `chunk_size = chunk_size or self.chunk_size` and
`overlap = overlap or self.overlap` treat an explicit `0` exactly like an
absent argument (`None`): both are falsy, so the configured defaults
(CHUNK_SIZE = 1000, CHUNK_OVERLAP = 200) are substituted, and in
particular `chunk_text(text, cs, 0) = chunk_text(text, cs,
config.CHUNK_OVERLAP)` for every text and every chunk_size argument. -/
theorem C10_zero_args_resolve_to_defaults :
    ∀ (text : String) (cs ov : Option Nat),
      chunk_text text cs (some 0) = chunk_text text cs none ∧
      chunk_text text (some 0) ov = chunk_text text none ov ∧
      chunk_text text cs (some 0) = chunk_text text cs (some CHUNK_OVERLAP) ∧
      chunk_text text (some 0) ov = chunk_text text (some CHUNK_SIZE) ov := by
  intro text cs ov
  refine ⟨?_, ?_, ?_, ?_⟩ <;> simp [chunk_text, pyOr, CHUNK_SIZE, CHUNK_OVERLAP]

/-! ## C3 - chunk ordering and contiguity of sequence indices -/

/-- C3 counterexample: the claim states the returned sequence indices are
exactly 0..N-1 regardless of which per-chunk embedding calls succeeded.
Processing a document whose text chunks into two pieces (two 600-character
sentences, so the 1000-token default budget forces a split) with the
embedding call failing on chunk 0 and succeeding on chunk 1 persists only
chunk 1: `get_chunks_df` returns sequence indices `[1]`, not
`0..N-1 = [0]` for its N = 1 rows. -/
theorem C3_counterexample :
    ((get_chunks_df (process_job
        ⟨⟨[⟨1, "g", String.mk (List.replicate 600 'X') ++ ". " ++ String.mk (List.replicate 600 'Y'),
            "g.pdf", 1202, 1, none, "pending", none⟩], [], 2⟩, [], []⟩
        (fun p => if p = "g.pdf" then some (String.mk (List.replicate 600 'X') ++ ". " ++ String.mk (List.replicate 600 'Y')) else none)
        (fun b => b)
        (fun i _ => if i = 0 then none else some [1])
        ⟨1, "g.pdf", "g"⟩).1.db 1).map (fun r => r.chunk_id)) = [1] ∧
    [1] ≠ List.range 1 := by decide

/-! ## C6 - top-K selection, tie-breaking, neighbor scores, final order -/

/-- C6 counterexample: the claim states ties in top-K selection are broken
by lower sequence index.  With two chunks of equal similarity and
`top_k = 1` (no neighbor expansion), `np.argsort` yields `[0, 1]`, the
`[::-1]` reversal makes it `[1, 0]`, and the single selected chunk is the
one with the *higher* sequence index 1, not 0. -/
theorem C6_counterexample :
    find_similar_chunks (some [1, 1]) [⟨0, "a", 1⟩, ⟨1, "b", 1⟩] 1 false
        = [⟨1, "b", 1, 1⟩] ∧
    (find_similar_chunks (some [1, 1]) [⟨0, "a", 1⟩, ⟨1, "b", 1⟩] 1 false).map
        (fun r => r.chunk_id) ≠ [0] := by decide

/-! ## C7 - uniform nine-field metrics output of the three answer modes -/

/-- C7 counterexample: the claim states all nine metric fields are present
on every path, including the empty-retrieval path.  On that path
`answer_question` returns a five-field dict (no response_time,
prompt_tokens, completion_tokens, total_tokens), and `generate_non_rag_answer`
returns a six-field dict with no citations field. -/
theorem C7_counterexample :
    (answer_question "q" [] none 5 true (.ok ⟨"a", 1, 1, 2⟩) 0).map Prod.fst
      = ["answer", "model_used", "chunks_used", "context_tokens", "citations"] ∧
    ¬ ("response_time" ∈ (answer_question "q" [] none 5 true (.ok ⟨"a", 1, 1, 2⟩) 0).map Prod.fst) ∧
    ¬ ("citations" ∈ (generate_non_rag_answer "q" (some "gpt-4") (.ok ⟨"a", 1, 1, 2⟩) 0).map Prod.fst) := by
  decide

/-! ## C9 - progress percentages within one processing run -/

/-- C9 counterexample: the claim states percentages are monotonically
non-decreasing through the terminal event, including a run that ends
`failed`.  A run whose PDF extraction yields no text emits percentages
`[0, 10, 0]`: the terminal `failed` event carries percentage 0, below the
preceding 10. -/
theorem C9_counterexample :
    ((process_job ⟨⟨[⟨1, "f", "b", "f.pdf", 1, 0, none, "pending", none⟩], [], 2⟩, [], [1]⟩
        (fun p => if p = "f.pdf" then some "b" else none) (fun _ => "")
        (fun _ _ => some [1]) ⟨1, "f.pdf", "f"⟩).2.map (fun e => e.progress)) = [0, 10, 0] ∧
    ¬ (((process_job ⟨⟨[⟨1, "f", "b", "f.pdf", 1, 0, none, "pending", none⟩], [], 2⟩, [], [1]⟩
        (fun p => if p = "f.pdf" then some "b" else none) (fun _ => "")
        (fun _ _ => some [1]) ⟨1, "f.pdf", "f"⟩).2.map (fun e => e.progress)).Pairwise (· ≤ ·)) := by
  decide

/-! ## C4 - the token budget of the packed context -/

/-- C4 counterexample: the claim's bound
`contextTokens + reserved + instruction&query tokens ≤ maxContextTokens`
is quantified over every packed context, but the fixed overhead is not
itself bounded by the budget: for an 8000-token query the available
budget is negative, the packed context is empty, and the stated sum
`0 + 2000 + (511 + 8000 + 100)` exceeds `MAX_CONTEXT_TOKENS = 8000`. -/
theorem C4_counterexample :
    limit_context_tokens [⟨0, "c", 1, 1⟩] (String.mk (List.replicate 8000 'a')) = [] ∧
    tok (build_context (limit_context_tokens [⟨0, "c", 1, 1⟩] (String.mk (List.replicate 8000 'a'))))
        + 2000 + (tok systemPromptRAG + tok (String.mk (List.replicate 8000 'a')) + 100)
      > MAX_CONTEXT_TOKENS := by
  have hq : tok (String.mk (List.replicate 8000 'a')) = 8000 := by
    rw [tok_mk, List.length_replicate]
  have hlim : limit_context_tokens [⟨0, "c", 1, 1⟩] (String.mk (List.replicate 8000 'a')) = [] := by
    show limitLoop _ _ 0 = []
    apply limitLoop_of_neg
    rw [tok_systemPromptRAG, hq]
    decide
  refine ⟨hlim, ?_⟩
  rw [hlim, tok_systemPromptRAG, hq]
  decide

/-- C7 amended: the nine uniform metric fields are returned by
`generate_answer` (retrieval-grounded generation step) and by the
non-empty-retrieval paths of `generate_hybrid_answer` (plus its extra
`mode` field), on the success path and on the generation-backend error
path alike; `generate_non_rag_answer` always returns the six fields
answer, model_used, response_time and the three token counts (no
chunks_used, context_tokens, citations); and on empty retrieval hybrid
degrades to exactly the generation-only result. -/
theorem C7_amended :
    (∀ (query : String) (chunks : List RChunk) (model? : Option String)
        (chat : Except String ChatResponse) (elapsed : Nat),
      (generate_answer query chunks model? chat elapsed).map Prod.fst =
        ["answer", "model_used", "chunks_used", "context_tokens", "citations",
         "response_time", "prompt_tokens", "completion_tokens", "total_tokens"]) ∧
    (∀ (query : String) (model? : Option String)
        (chat : Except String ChatResponse) (elapsed : Nat),
      (generate_non_rag_answer query model? chat elapsed).map Prod.fst =
        ["answer", "model_used", "response_time",
         "prompt_tokens", "completion_tokens", "total_tokens"]) ∧
    (∀ (query : String) (df : List DfRow) (sims? : Option (List ℚ))
        (top_k : Nat) (include_neighbors : Bool) (model? : Option String)
        (chat : Except String ChatResponse) (elapsed : Nat),
      find_similar_chunks sims? df top_k include_neighbors ≠ [] →
      (generate_hybrid_answer query df sims? top_k include_neighbors model? chat elapsed).map
          Prod.fst =
        ["answer", "model_used", "chunks_used", "context_tokens", "citations",
         "response_time", "prompt_tokens", "completion_tokens", "total_tokens", "mode"]) ∧
    (∀ (query : String) (df : List DfRow) (sims? : Option (List ℚ))
        (top_k : Nat) (include_neighbors : Bool) (model? : Option String)
        (chat : Except String ChatResponse) (elapsed : Nat),
      find_similar_chunks sims? df top_k include_neighbors = [] →
      generate_hybrid_answer query df sims? top_k include_neighbors model? chat elapsed =
        generate_non_rag_answer query model? chat elapsed) := by
  refine ⟨?_, ?_, ?_, ?_⟩
  · intro query chunks model? chat elapsed
    cases chat <;> rfl
  · intro query model? chat elapsed
    cases chat <;> rfl
  · intro query df sims? top_k include_neighbors model? chat elapsed h
    simp only [generate_hybrid_answer, if_neg h]
    cases chat <;> rfl
  · intro query df sims? top_k include_neighbors model? chat elapsed h
    simp only [generate_hybrid_answer, if_pos h]

/-- C7 amended, witnessed at a concrete input: a one-chunk frame with a
successful retrieval satisfies the non-empty hypothesis, and the hybrid
result then carries the nine uniform fields plus `mode`. -/
theorem C7_witness :
    find_similar_chunks (some [1]) [⟨0, "a", 1⟩] 1 false ≠ [] ∧
    (generate_hybrid_answer "q" [⟨0, "a", 1⟩] (some [1]) 1 false none
        (.ok ⟨"a", 1, 1, 2⟩) 0).map Prod.fst =
      ["answer", "model_used", "chunks_used", "context_tokens", "citations",
       "response_time", "prompt_tokens", "completion_tokens", "total_tokens", "mode"] :=
  ⟨by decide, C7_amended.2.2.1 "q" [⟨0, "a", 1⟩] (some [1]) 1 false none
    (.ok ⟨"a", 1, 1, 2⟩) 0 (by decide)⟩

/-! ## C2 - idempotent submission of identical bytes -/

/-- C2: re-submitting identical bytes hits the UNIQUE `file_hash` column:
`add_document` returns the existing document id and leaves the database
(in particular the documents table) completely unchanged; and when the
resolved document's status is `completed`, `queue_document` returns that
id immediately with the processor state untouched - no job is enqueued,
no callback registered, and the chunks table (hence chunk records) is
unchanged. -/
theorem C2_identical_bytes_idempotent :
    (∀ (db : DB) (f1 p1 : String) (s1 n1 : Nat) (f2 p2 : String) (s2 n2 : Nat)
        (content : String),
      (add_document (add_document db f1 p1 s1 n1 content).2 f2 p2 s2 n2 content).1
        = (add_document db f1 p1 s1 n1 content).1 ∧
      (add_document (add_document db f1 p1 s1 n1 content).2 f2 p2 s2 n2 content).2
        = (add_document db f1 p1 s1 n1 content).2) ∧
    (∀ (st : PState) (fs : String → Option String) (pdfPages : String → Nat)
        (file_path : String) (filename? : Option String) (has_callback : Bool)
        (content : String) (d : DocRow),
      fs file_path = some content →
      st.db.documents.find? (fun x => x.file_hash = md5 content) = some d →
      get_document_by_id st.db d.id = some d →
      d.status = "completed" →
      queue_document st fs pdfPages file_path filename? has_callback
        = .ok (d.id, st)) := by
  constructor
  · intro db f1 p1 s1 n1 f2 p2 s2 n2 content
    cases hfind : db.documents.find? (fun x => x.file_hash = md5 content) with
    | some d =>
      simp only [add_document, hfind]
      exact ⟨trivial, trivial⟩
    | none =>
      simp only [add_document, hfind, List.find?_append, Option.or]
      simp [List.find?]
  · intro st fs pdfPages file_path filename? has_callback content d hfs hfind hid hstatus
    simp only [queue_document, hfs, add_document, hfind, hid, hstatus]
    rfl

/-- C2 witnessed at a concrete state: one completed document whose bytes
are re-submitted; `queue_document` returns its id with the state
unchanged. -/
theorem C2_witness :
    queue_document
        ⟨⟨[⟨1, "a.pdf", "BYTES", "p", 5, 3, some 1, "completed", none⟩], [], 2⟩, [], []⟩
        (fun p => if p = "p" then some "BYTES" else none) (fun _ => 3) "p" none false
      = .ok (1, ⟨⟨[⟨1, "a.pdf", "BYTES", "p", 5, 3, some 1, "completed", none⟩], [], 2⟩, [], []⟩) :=
  C2_identical_bytes_idempotent.2
    ⟨⟨[⟨1, "a.pdf", "BYTES", "p", 5, 3, some 1, "completed", none⟩], [], 2⟩, [], []⟩
    (fun p => if p = "p" then some "BYTES" else none) (fun _ => 3) "p" none false
    "BYTES" ⟨1, "a.pdf", "BYTES", "p", 5, 3, some 1, "completed", none⟩
    (by decide) (by decide) (by decide) (by decide)

/-- find? for the row with a given id, over an UPDATE that rewrites
exactly the rows with that id through an id-preserving function. -/
theorem find?_map_ite (i : Nat) (g : DocRow → DocRow) (hg : ∀ d, (g d).id = d.id) :
    ∀ l : List DocRow,
      ((l.map fun d => if d.id = i then g d else d).find? fun d => d.id = i)
        = (l.find? fun d => d.id = i).map g := by
  intro l
  induction l with
  | nil => rfl
  | cons d t ih =>
    by_cases hd : d.id = i
    · simp [List.find?_cons, hd, hg]
    · simp [List.find?_cons, hd, ih]

/-- Status update seen through `get_document_by_id`. -/
theorem get_doc_update (db : DB) (i : Nat) (s : String) (e : Option String) :
    get_document_by_id (update_document_status db i s e) i
      = (get_document_by_id db i).map fun d => { d with status := s, error_message := e } := by
  simp only [get_document_by_id, update_document_status]
  exact find?_map_ite i (fun d => { d with status := s, error_message := e })
    (fun d => rfl) db.documents

/-- The id-row lookup through an id-preserving UPDATE, projected to the
(status, error_message) pair the update does not touch. -/
theorem find?_status_map_ite (i : Nat) (g : DocRow → DocRow)
    (hg : ∀ d, (g d).id = d.id) (hs : ∀ d, (g d).status = d.status)
    (he : ∀ d, (g d).error_message = d.error_message) (l : List DocRow) :
    (((l.map fun d => if d.id = i then g d else d).find? fun d => d.id = i).map
        fun d => (d.status, d.error_message))
      = ((l.find? fun d => d.id = i).map fun d => (d.status, d.error_message)) := by
  rw [find?_map_ite i g hg l]
  cases l.find? fun d => d.id = i <;> simp [hs, he]

/-- `add_chunks` leaves every document row's status and error unchanged
(it only rewrites `total_chunks`). -/
theorem get_doc_add_chunks_status (db : DB) (i : Nat) (cs : List EmbChunk) :
    ((get_document_by_id (add_chunks db i cs) i).map fun d => (d.status, d.error_message))
      = (get_document_by_id db i).map fun d => (d.status, d.error_message) := by
  simp only [get_document_by_id, add_chunks]
  refine find?_status_map_ite i _ ?_ ?_ ?_ db.documents
  · exact fun d => rfl
  · exact fun d => rfl
  · exact fun d => rfl

/-- The fold of `INSERT OR REPLACE` statements appends exactly one fresh
row per batch element when the batch ids are distinct and no existing row
of this document collides with the batch. -/
theorem foldl_insert_filter (doc_id : Nat) :
    ∀ (cs : List EmbChunk) (rows : List ChunkRow),
      (cs.map fun c => c.chunk.chunk_id).Nodup →
      (∀ r ∈ rows, r.document_id = doc_id →
        ¬ r.chunk_id ∈ cs.map fun c => c.chunk.chunk_id) →
      ((cs.foldl (fun acc c => insertOrReplaceChunk acc doc_id c) rows).filter
          fun r => r.document_id = doc_id)
        = (rows.filter fun r => r.document_id = doc_id) ++ cs.map (chunkToRow doc_id) := by
  intro cs
  induction cs with
  | nil => intro rows _ _; simp
  | cons c rest ih =>
    intro rows hnodup hclash
    rw [List.map_cons, List.nodup_cons] at hnodup
    have hfilt : rows.filter
        (fun r => ¬ (r.document_id = doc_id ∧ r.chunk_id = c.chunk.chunk_id)) = rows := by
      rw [List.filter_eq_self]
      intro r hr
      simp only [decide_eq_true_eq]
      intro hand
      exact hclash r hr hand.1 (by rw [List.map_cons]; exact hand.2 ▸ List.mem_cons_self _ _)
    have hstep : insertOrReplaceChunk rows doc_id c = rows ++ [chunkToRow doc_id c] := by
      unfold insertOrReplaceChunk
      rw [hfilt]
    rw [List.foldl_cons, hstep, ih]
    · rw [List.filter_append]
      have hone : ([chunkToRow doc_id c].filter fun r => r.document_id = doc_id)
          = [chunkToRow doc_id c] := by
        simp [chunkToRow]
      rw [hone]
      simp
    · exact hnodup.2
    · intro r hr hdoc
      rcases List.mem_append.mp hr with h1 | h2
      · intro hmem
        exact hclash r h1 hdoc (by rw [List.map_cons]; exact List.mem_cons_of_mem _ hmem)
      · rw [List.mem_singleton] at h2
        subst h2
        exact hnodup.1

/-- The embedding loop keeps exactly the chunks whose embedding call
succeeds, in order (skip-and-continue). -/
theorem embedLoop_fst (embed : Nat → String → Option (List ℚ)) (doc_id n : Nat) :
    ∀ l : List (Nat × ChunkRec),
      (embedLoop embed doc_id n l).1
        = l.filterMap fun ic => (embed ic.1 ic.2.text).map fun v => ⟨ic.2, some v⟩ := by
  intro l
  induction l with
  | nil => rfl
  | cons ic rest ih =>
    rcases ic with ⟨i, c⟩
    simp only [embedLoop, List.filterMap_cons]
    cases embed i c.text <;> simp [ih]

/-- The surviving chunk ids form a sublist of the batch's chunk ids. -/
theorem embedLoop_ids_sublist (embed : Nat → String → Option (List ℚ)) (doc_id n : Nat) :
    ∀ l : List (Nat × ChunkRec),
      ((embedLoop embed doc_id n l).1.map fun c => c.chunk.chunk_id).Sublist
        (l.map fun ic => ic.2.chunk_id) := by
  intro l
  induction l with
  | nil => simp [embedLoop]
  | cons ic rest ih =>
    rcases ic with ⟨i, c⟩
    simp only [embedLoop, List.map_cons]
    cases embed i c.text with
    | some v => simpa using ih.cons₂ c.chunk_id
    | none => exact ih.cons _

/-- Invariant of the chunker loop: the accumulated chunk ids are exactly
`range chunk_id`. -/
theorem chunkLoop_ids (csz ov : Nat) :
    ∀ (l : List (Nat × String)) (st : ChunkState),
      (st.chunks.map fun c => c.chunk_id) = List.range st.chunk_id →
      (((l.foldl (chunkStep csz ov) st).chunks.map fun c => c.chunk_id)
        = List.range (l.foldl (chunkStep csz ov) st).chunk_id) := by
  intro l
  induction l with
  | nil => intro st h; exact h
  | cons p t ih =>
    intro st h
    apply ih
    simp only [chunkStep]
    split
    · simp [h, List.range_succ]
    · exact h

/-- The chunk ids produced by `chunk_text` are exactly `0..N-1`. -/
theorem chunk_text_ids (text : String) (cs ov : Option Nat) :
    ((chunk_text text cs ov).map fun c => c.chunk_id)
      = List.range (chunk_text text cs ov).length := by
  have base := chunkLoop_ids (pyOr cs CHUNK_SIZE) (pyOr ov CHUNK_OVERLAP)
    (pySplitDot text).enum ⟨[], "", 0, 0⟩ (by simp)
  have hlen : ((pySplitDot text).enum.foldl
      (chunkStep (pyOr cs CHUNK_SIZE) (pyOr ov CHUNK_OVERLAP)) ⟨[], "", 0, 0⟩).chunks.length
      = ((pySplitDot text).enum.foldl
      (chunkStep (pyOr cs CHUNK_SIZE) (pyOr ov CHUNK_OVERLAP)) ⟨[], "", 0, 0⟩).chunk_id := by
    have := congrArg List.length base
    simpa using this
  simp only [chunk_text]
  split
  · simp [base, hlen, List.range_succ]
  · simp [base, hlen]

/-- `get_document_by_id` through `add_chunks`: only `total_chunks` is
rewritten on the matching row. -/
theorem get_doc_add_chunks (db : DB) (i : Nat) (cs : List EmbChunk) :
    get_document_by_id (add_chunks db i cs) i
      = (get_document_by_id db i).map fun d => { d with total_chunks := some ((List.filter (fun r => r.document_id = i) (List.foldl (fun acc c => insertOrReplaceChunk acc i c) db.chunks cs)).length) } := by
  simp only [get_document_by_id, add_chunks]
  refine find?_map_ite i _ ?_ db.documents
  exact fun d => rfl

/-- C8: during one document's run that reaches the embedding phase
(file readable, extraction nonempty), (1) the embedding loop keeps
exactly the chunks whose embedding call succeeded, skipping failures and
continuing; (2) if zero chunks obtained an embedding the document is
marked `failed` with the "Failed to generate any embeddings" error and no
chunk rows are persisted; (3) otherwise exactly the surviving chunks are
persisted (in order, for a document with no pre-existing chunk rows) and
the document is marked `completed`. -/
theorem C8_skip_failed_chunks
    (st : PState) (fs : String → Option String) (loadPdf : String → String)
    (embed : Nat → String → Option (List ℚ)) (job : Job) (bytes : String) (d : DocRow)
    (hfs : fs job.file_path = some bytes)
    (hne : loadPdf bytes ≠ "")
    (hdoc : get_document_by_id st.db job.document_id = some d)
    (hclean : st.db.chunks.filter (fun r => r.document_id = job.document_id) = []) :
    (embedLoop embed job.document_id (chunk_text (loadPdf bytes) none none).length
        (chunk_text (loadPdf bytes) none none).enum).1
      = (chunk_text (loadPdf bytes) none none).enum.filterMap
          (fun ic => (embed ic.1 ic.2.text).map fun v => ⟨ic.2, some v⟩) ∧
    ((embedLoop embed job.document_id (chunk_text (loadPdf bytes) none none).length
        (chunk_text (loadPdf bytes) none none).enum).1 = [] →
      ((get_document_by_id (process_job st fs loadPdf embed job).1.db job.document_id).map
          fun x => (x.status, x.error_message))
        = some ("failed", some "Failed to generate any embeddings") ∧
      (process_job st fs loadPdf embed job).1.db.chunks.filter
          (fun r => r.document_id = job.document_id) = []) ∧
    ((embedLoop embed job.document_id (chunk_text (loadPdf bytes) none none).length
        (chunk_text (loadPdf bytes) none none).enum).1 ≠ [] →
      ((get_document_by_id (process_job st fs loadPdf embed job).1.db job.document_id).map
          fun x => (x.status, x.error_message))
        = some ("completed", none) ∧
      (process_job st fs loadPdf embed job).1.db.chunks.filter
          (fun r => r.document_id = job.document_id)
        = (embedLoop embed job.document_id (chunk_text (loadPdf bytes) none none).length
            (chunk_text (loadPdf bytes) none none).enum).1.map
            (chunkToRow job.document_id)) := by
  refine ⟨embedLoop_fst embed job.document_id _ _, ?_, ?_⟩
  · intro hemp
    simp only [process_job, hfs, if_neg hne, hemp, if_pos]
    constructor
    · rw [get_doc_update, get_doc_update, hdoc]
      rfl
    · exact hclean
  · intro hne2
    have hids : ((chunk_text (loadPdf bytes) none none).enum.map fun ic => ic.2.chunk_id)
        = ((chunk_text (loadPdf bytes) none none).map fun c => c.chunk_id) := by
      rw [show (fun ic : Nat × ChunkRec => ic.2.chunk_id)
          = (fun c : ChunkRec => c.chunk_id) ∘ Prod.snd from rfl]
      rw [← List.map_map, List.enum_map_snd]
    have hnodup : ((embedLoop embed job.document_id
        (chunk_text (loadPdf bytes) none none).length
        (chunk_text (loadPdf bytes) none none).enum).1.map
          fun c => c.chunk.chunk_id).Nodup :=
      List.Sublist.nodup (embedLoop_ids_sublist embed job.document_id _ _)
        (by rw [hids, chunk_text_ids]; exact List.nodup_range _)
    have hclash : ∀ r ∈ st.db.chunks, r.document_id = job.document_id →
        ¬ r.chunk_id ∈ ((embedLoop embed job.document_id
          (chunk_text (loadPdf bytes) none none).length
          (chunk_text (loadPdf bytes) none none).enum).1.map
            fun c => c.chunk.chunk_id) := by
      intro r hr hrd
      have hmem : r ∈ st.db.chunks.filter (fun r => r.document_id = job.document_id) :=
        List.mem_filter.mpr ⟨hr, by simp [hrd]⟩
      rw [hclean] at hmem
      exact absurd hmem (List.not_mem_nil r)
    simp only [process_job, hfs, if_neg hne, if_neg hne2]
    constructor
    · rw [get_doc_update, get_doc_add_chunks, get_doc_update, hdoc]
      rfl
    · simp only [update_document_status, add_chunks]
      rw [foldl_insert_filter _ _ _ hnodup hclash, hclean]
      simp

/-- C8 witnessed concretely: a one-chunk document whose single embedding
call succeeds ends `completed` with exactly that chunk persisted. -/
theorem C8_witness :
    (embedLoop (fun _ _ => some [(2 : ℚ)]) 1 (chunk_text "A" none none).length
        (chunk_text "A" none none).enum).1 ≠ [] ∧
    (((get_document_by_id (process_job
        ⟨⟨[⟨1, "a", "A", "f.pdf", 1, 1, none, "pending", none⟩], [], 2⟩, [], []⟩
        (fun p => if p = "f.pdf" then some "A" else none) (fun b => b)
        (fun _ _ => some [(2 : ℚ)]) ⟨1, "f.pdf", "a"⟩).1.db 1).map
        fun x => (x.status, x.error_message)) = some ("completed", none) ∧
      (process_job
        ⟨⟨[⟨1, "a", "A", "f.pdf", 1, 1, none, "pending", none⟩], [], 2⟩, [], []⟩
        (fun p => if p = "f.pdf" then some "A" else none) (fun b => b)
        (fun _ _ => some [(2 : ℚ)]) ⟨1, "f.pdf", "a"⟩).1.db.chunks.filter
          (fun r => r.document_id = 1)
        = (embedLoop (fun _ _ => some [(2 : ℚ)]) 1 (chunk_text "A" none none).length
            (chunk_text "A" none none).enum).1.map (chunkToRow 1)) :=
  ⟨by decide,
    (C8_skip_failed_chunks
      ⟨⟨[⟨1, "a", "A", "f.pdf", 1, 1, none, "pending", none⟩], [], 2⟩, [], []⟩
      (fun p => if p = "f.pdf" then some "A" else none) (fun b => b)
      (fun _ _ => some [(2 : ℚ)]) ⟨1, "f.pdf", "a"⟩ "A"
      ⟨1, "a", "A", "f.pdf", 1, 1, none, "pending", none⟩
      (by decide) (by decide) (by decide) (by decide)).2.2 (by decide)⟩

/-- Every event the embedding loop emits carries a percentage between 40
and 90 (chunk indices are below the chunk count). -/
theorem embedLoop_events_bounds (embed : Nat → String → Option (List ℚ)) (doc n : Nat) :
    ∀ l : List (Nat × ChunkRec), (∀ ic ∈ l, ic.1 < n) →
      ∀ e ∈ (embedLoop embed doc n l).2, 40 ≤ e.progress ∧ e.progress ≤ 90 := by
  intro l
  induction l with
  | nil => intro _ e he; simp [embedLoop] at he
  | cons ic rest ih =>
    intro hlt e he
    rcases ic with ⟨i, c⟩
    simp only [embedLoop] at he
    have hi : i < n := hlt (i, c) (List.mem_cons_self _ _)
    have hrest : ∀ jc ∈ rest, jc.1 < n := fun jc hj => hlt jc (List.mem_cons_of_mem _ hj)
    cases hcall : embed i c.text with
    | some v =>
      rw [hcall] at he
      rcases List.mem_cons.mp he with h1 | h2
      · subst h1
        constructor
        · simp
        · have h50 : (i + 1) * 50 / n ≤ 50 := by
            have hmul : (i + 1) * 50 ≤ n * 50 := Nat.mul_le_mul_right 50 (by omega)
            have := Nat.div_le_div_right (c := n) hmul
            rwa [Nat.mul_comm n 50, Nat.mul_div_cancel 50 (by omega)] at this
          simp only []
          omega
      · exact ih hrest e h2
    | none =>
      rw [hcall] at he
      exact ih hrest e he

/-- Every embedding-loop event's percentage comes from one of the chunk
indices of the batch. -/
theorem embedLoop_events_mem (embed : Nat → String → Option (List ℚ)) (doc n : Nat) :
    ∀ l : List (Nat × ChunkRec), ∀ e ∈ (embedLoop embed doc n l).2,
      ∃ ic, ic ∈ l ∧ e.progress = 40 + (ic.1 + 1) * 50 / n := by
  intro l
  induction l with
  | nil => intro e he; simp [embedLoop] at he
  | cons ic rest ih =>
    intro e he
    rcases ic with ⟨i, c⟩
    simp only [embedLoop] at he
    cases hcall : embed i c.text with
    | some v =>
      rw [hcall] at he
      rcases List.mem_cons.mp he with h1 | h2
      · exact ⟨(i, c), List.mem_cons_self _ _, by rw [h1]⟩
      · rcases ih e h2 with ⟨jc, hj, hp⟩
        exact ⟨jc, List.mem_cons_of_mem _ hj, hp⟩
    | none =>
      rw [hcall] at he
      rcases ih e he with ⟨jc, hj, hp⟩
      exact ⟨jc, List.mem_cons_of_mem _ hj, hp⟩

/-- The embedding-loop events are emitted with non-decreasing
percentages when the batch indices are non-decreasing. -/
theorem embedLoop_events_pairwise (embed : Nat → String → Option (List ℚ)) (doc n : Nat) :
    ∀ l : List (Nat × ChunkRec), l.Pairwise (fun a b => a.1 ≤ b.1) →
      ((embedLoop embed doc n l).2.map fun e => e.progress).Pairwise (· ≤ ·) := by
  intro l
  induction l with
  | nil => simp [embedLoop]
  | cons ic rest ih =>
    intro hpw
    rcases ic with ⟨i, c⟩
    rcases List.pairwise_cons.mp hpw with ⟨hle, htail⟩
    simp only [embedLoop]
    cases hcall : embed i c.text with
    | some v =>
      rw [List.map_cons, List.pairwise_cons]
      constructor
      · intro p hp
        rcases List.mem_map.mp hp with ⟨e, he, rfl⟩
        rcases embedLoop_events_mem embed doc n rest e he with ⟨jc, hj, hpr⟩
        rw [hpr]
        have : i ≤ jc.1 := hle jc hj
        have hdiv : (i + 1) * 50 / n ≤ (jc.1 + 1) * 50 / n :=
          Nat.div_le_div_right (Nat.mul_le_mul_right 50 (by omega))
        simp only []
        omega
      · exact ih htail
    | none => exact ih htail

/-- C9 amended: every progress event of a processing run carries a
percentage in 0-100 (the lower bound holds trivially on naturals), and
for a run whose terminal event is `completed` the percentages are
monotonically non-decreasing from the first event to the last; a failed
run instead ends with an unconditional percentage-0 event. -/
theorem C9_amended :
    (∀ (st : PState) (fs : String → Option String) (loadPdf : String → String)
        (embed : Nat → String → Option (List ℚ)) (job : Job),
      ∀ e ∈ (process_job st fs loadPdf embed job).2, e.progress ≤ 100) ∧
    (∀ (st : PState) (fs : String → Option String) (loadPdf : String → String)
        (embed : Nat → String → Option (List ℚ)) (job : Job),
      ((process_job st fs loadPdf embed job).2.getLast?).map (fun e => e.status)
        = some "completed" →
      ((process_job st fs loadPdf embed job).2.map fun e => e.progress).Pairwise (· ≤ ·)) := by
  constructor
  · intro st fs loadPdf embed job e he
    simp only [process_job] at he
    cases hfs : fs job.file_path with
    | none =>
      rw [hfs] at he
      simp at he
      rcases he with h | h | h <;> simp [h]
    | some bytes =>
      simp only [hfs] at he
      by_cases htext : loadPdf bytes = ""
      · rw [if_pos htext] at he
        simp at he
        rcases he with h | h | h <;> simp [h]
      · rw [if_neg htext] at he
        have henum : ∀ ic ∈ (chunk_text (loadPdf bytes) none none).enum,
            ic.1 < (chunk_text (loadPdf bytes) none none).length := by
          intro ic hic
          rcases ic with ⟨i, c⟩
          exact (List.mem_enum hic).1
        by_cases hemp : (embedLoop embed job.document_id
            (chunk_text (loadPdf bytes) none none).length
            (chunk_text (loadPdf bytes) none none).enum).1 = []
        · rw [if_pos hemp] at he
          rcases List.mem_append.mp he with h1 | h2
          · rcases List.mem_append.mp h1 with h3 | h4
            · simp at h3
              rcases h3 with h | h | h | h <;> simp [h]
            · have := embedLoop_events_bounds embed job.document_id
                (chunk_text (loadPdf bytes) none none).length
                (chunk_text (loadPdf bytes) none none).enum henum e h4
              omega
          · simp at h2
            simp [h2]
        · rw [if_neg hemp] at he
          rcases List.mem_append.mp he with h1 | h2
          · rcases List.mem_append.mp h1 with h3 | h4
            · simp at h3
              rcases h3 with h | h | h | h <;> simp [h]
            · have := embedLoop_events_bounds embed job.document_id
                (chunk_text (loadPdf bytes) none none).length
                (chunk_text (loadPdf bytes) none none).enum henum e h4
              omega
          · simp at h2
            rcases h2 with h | h <;> simp [h]
  · intro st fs loadPdf embed job hlast
    simp only [process_job] at hlast ⊢
    cases hfs : fs job.file_path with
    | none =>
      rw [hfs] at hlast
      simp [List.getLast?] at hlast
    | some bytes =>
      simp only [hfs] at hlast ⊢
      by_cases htext : loadPdf bytes = ""
      · rw [if_pos htext] at hlast
        simp [List.getLast?] at hlast
      · rw [if_neg htext] at hlast ⊢
        by_cases hemp : (embedLoop embed job.document_id
            (chunk_text (loadPdf bytes) none none).length
            (chunk_text (loadPdf bytes) none none).enum).1 = []
        · rw [if_pos hemp] at hlast
          rw [List.getLast?_concat] at hlast
          simp at hlast
        · rw [if_neg hemp]
          have henum : ∀ ic ∈ (chunk_text (loadPdf bytes) none none).enum,
              ic.1 < (chunk_text (loadPdf bytes) none none).length := by
            intro ic hic
            rcases ic with ⟨i, c⟩
            exact (List.mem_enum hic).1
          have hpwenum : (chunk_text (loadPdf bytes) none none).enum.Pairwise
              (fun a b => a.1 ≤ b.1) := by
            have hr := List.pairwise_lt_range (chunk_text (loadPdf bytes) none none).length
            rw [← List.enum_map_fst] at hr
            exact (List.pairwise_map.mp hr).imp (fun h => Nat.le_of_lt h)
          have hmid := embedLoop_events_pairwise embed job.document_id
            (chunk_text (loadPdf bytes) none none).length
            (chunk_text (loadPdf bytes) none none).enum hpwenum
          have hmidmem : ∀ p ∈ ((embedLoop embed job.document_id
              (chunk_text (loadPdf bytes) none none).length
              (chunk_text (loadPdf bytes) none none).enum).2.map fun e => e.progress),
              40 ≤ p ∧ p ≤ 90 := by
            intro p hp
            rcases List.mem_map.mp hp with ⟨e, he, rfl⟩
            exact embedLoop_events_bounds embed job.document_id
              (chunk_text (loadPdf bytes) none none).length
              (chunk_text (loadPdf bytes) none none).enum henum e he
          simp only [List.map_append, List.map_cons, List.map_nil]
          rw [List.pairwise_append]
          refine ⟨?_, ?_, ?_⟩
          · rw [List.pairwise_append]
            refine ⟨by decide, hmid, ?_⟩
            · intro a ha b hb
              have := (hmidmem b hb).1
              simp at ha
              rcases ha with h | h | h | h <;> omega
          · decide
          · intro a ha b hb
            rcases List.mem_append.mp ha with h1 | h2
            · simp at h1
              simp at hb
              rcases hb with h | h <;> rcases h1 with g | g | g | g <;> omega
            · have := (hmidmem a h2).2
              simp at hb
              rcases hb with h | h <;> omega

/-- C9 amended, witnessed by a concrete completed run: percentages
`[0, 10, 30, 40, 90, 90, 100]` are non-decreasing. -/
theorem C9_witness :
    ((process_job ⟨⟨[⟨1, "f", "T", "f.pdf", 1, 1, none, "pending", none⟩], [], 2⟩, [], [1]⟩
        (fun p => if p = "f.pdf" then some "T" else none) (fun b => b)
        (fun _ _ => some [1]) ⟨1, "f.pdf", "f"⟩).2.getLast?).map (fun e => e.status)
      = some "completed" ∧
    ((process_job ⟨⟨[⟨1, "f", "T", "f.pdf", 1, 1, none, "pending", none⟩], [], 2⟩, [], [1]⟩
        (fun p => if p = "f.pdf" then some "T" else none) (fun b => b)
        (fun _ _ => some [1]) ⟨1, "f.pdf", "f"⟩).2.map fun e => e.progress).Pairwise (· ≤ ·) :=
  ⟨by decide,
    C9_amended.2 ⟨⟨[⟨1, "f", "T", "f.pdf", 1, 1, none, "pending", none⟩], [], 2⟩, [], [1]⟩
      (fun p => if p = "f.pdf" then some "T" else none) (fun b => b)
      (fun _ _ => some [1]) ⟨1, "f.pdf", "f"⟩ (by decide)⟩

/-- Inserting into the chunk-id ordered list is a permutation of cons. -/
theorem insertByChunkId_perm (r : ChunkRow) :
    ∀ l : List ChunkRow, (insertByChunkId r l).Perm (r :: l) := by
  intro l
  induction l with
  | nil => simp [insertByChunkId]
  | cons x xs ih =>
    simp only [insertByChunkId]
    split
    · exact List.Perm.refl _
    · exact (ih.cons x).trans (List.Perm.swap r x xs)

/-- Inserting preserves the ascending-by-chunk-id invariant. -/
theorem insertByChunkId_pairwise (r : ChunkRow) :
    ∀ l : List ChunkRow, l.Pairwise (fun a b => a.chunk_id ≤ b.chunk_id) →
      (insertByChunkId r l).Pairwise (fun a b => a.chunk_id ≤ b.chunk_id) := by
  intro l
  induction l with
  | nil => intro _; simp [insertByChunkId]
  | cons x xs ih =>
    intro hpw
    rcases List.pairwise_cons.mp hpw with ⟨hx, hxs⟩
    simp only [insertByChunkId]
    split
    · rename_i hlt
      rw [List.pairwise_cons]
      refine ⟨?_, hpw⟩
      intro b hb
      rcases List.mem_cons.mp hb with h1 | h2
      · subst h1; omega
      · have := hx b h2; omega
    · rename_i hnlt
      rw [List.pairwise_cons]
      constructor
      · intro b hb
        have hb' := (insertByChunkId_perm r xs).mem_iff.mp hb
        rcases List.mem_cons.mp hb' with h1 | h2
        · subst h1; omega
        · exact hx b h2
      · exact ih hxs

/-- The model of `ORDER BY chunk_id` permutes its input. -/
theorem sortByChunkId_perm :
    ∀ l : List ChunkRow, (sortByChunkId l).Perm l := by
  have haux : ∀ (l acc : List ChunkRow),
      (l.foldl (fun a r => insertByChunkId r a) acc).Perm (acc ++ l) := by
    intro l
    induction l with
    | nil => intro acc; simp
    | cons x xs ih =>
      intro acc
      have h1 := ih (insertByChunkId x acc)
      have h2 : (insertByChunkId x acc ++ xs).Perm (acc ++ x :: xs) := by
        refine List.Perm.trans (List.Perm.append_right xs (insertByChunkId_perm x acc)) ?_
        exact (List.perm_middle).symm.trans (List.Perm.refl _) |>.symm.symm
      exact h1.trans h2
  intro l
  simpa using haux l []

/-- The model of `ORDER BY chunk_id` returns an ascending list. -/
theorem sortByChunkId_pairwise :
    ∀ l : List ChunkRow, (sortByChunkId l).Pairwise (fun a b => a.chunk_id ≤ b.chunk_id) := by
  have haux : ∀ (l acc : List ChunkRow),
      acc.Pairwise (fun a b => a.chunk_id ≤ b.chunk_id) →
      (l.foldl (fun a r => insertByChunkId r a) acc).Pairwise
        (fun a b => a.chunk_id ≤ b.chunk_id) := by
    intro l
    induction l with
    | nil => intro acc h; exact h
    | cons x xs ih =>
      intro acc h
      exact ih _ (insertByChunkId_pairwise x acc h)
  intro l
  exact haux l [] (List.Pairwise.nil)

/-- Ascending plus distinct chunk ids gives strictly ascending. -/
theorem pairwise_le_nodup_lt :
    ∀ l : List ChunkRow, l.Pairwise (fun a b => a.chunk_id ≤ b.chunk_id) →
      ((l.map fun r => r.chunk_id).Nodup) →
      l.Pairwise (fun a b => a.chunk_id < b.chunk_id) := by
  intro l
  induction l with
  | nil => intro _ _; exact List.Pairwise.nil
  | cons x xs ih =>
    intro hpw hnd
    rcases List.pairwise_cons.mp hpw with ⟨hx, hxs⟩
    rw [List.map_cons, List.nodup_cons] at hnd
    rw [List.pairwise_cons]
    constructor
    · intro b hb
      have h1 := hx b hb
      have h2 : ¬ x.chunk_id = b.chunk_id := by
        intro heq
        exact hnd.1 (heq ▸ List.mem_map_of_mem (fun r => r.chunk_id) hb)
      omega
    · exact ih hxs hnd.2

/-- Inserting an element at least as large as everything in the list
appends it at the end. -/
theorem insertByChunkId_at_end (r : ChunkRow) :
    ∀ l : List ChunkRow, (∀ y ∈ l, ¬ r.chunk_id < y.chunk_id) →
      insertByChunkId r l = l ++ [r] := by
  intro l
  induction l with
  | nil => intro _; rfl
  | cons x xs ih =>
    intro hle
    simp only [insertByChunkId]
    rw [if_neg (hle x (List.mem_cons_self _ _))]
    rw [ih (fun y hy => hle y (List.mem_cons_of_mem _ hy))]
    rfl

/-- Sorting an already ascending list is the identity. -/
theorem sortByChunkId_sorted_id :
    ∀ l : List ChunkRow, l.Pairwise (fun a b => a.chunk_id ≤ b.chunk_id) →
      sortByChunkId l = l := by
  have haux : ∀ (l acc : List ChunkRow),
      (∀ y ∈ acc, ∀ x ∈ l, y.chunk_id ≤ x.chunk_id) →
      l.Pairwise (fun a b => a.chunk_id ≤ b.chunk_id) →
      l.foldl (fun a r => insertByChunkId r a) acc = acc ++ l := by
    intro l
    induction l with
    | nil => intro acc _ _; simp
    | cons x xs ih =>
      intro acc hcross hpw
      rcases List.pairwise_cons.mp hpw with ⟨hx, hxs⟩
      rw [List.foldl_cons]
      rw [insertByChunkId_at_end x acc
        (fun y hy => by have := hcross y hy x (List.mem_cons_self _ _); omega)]
      rw [ih (acc ++ [x]) ?_ hxs]
      · simp
      · intro y hy z hz
        rcases List.mem_append.mp hy with h1 | h2
        · exact hcross y h1 z (List.mem_cons_of_mem _ hz)
        · rw [List.mem_singleton] at h2
          subst h2
          exact hx z hz
  intro l h
  simpa using haux l [] (by intro y hy; simp at hy) h

/-- With every embedding call succeeding, the surviving chunk ids are
exactly the batch's chunk ids. -/
theorem embedLoop_ids_all_some (embed : Nat → String → Option (List ℚ)) (doc n : Nat) :
    ∀ l : List (Nat × ChunkRec), (∀ ic ∈ l, (embed ic.1 ic.2.text).isSome) →
      ((embedLoop embed doc n l).1.map fun c => c.chunk.chunk_id)
        = l.map fun ic => ic.2.chunk_id := by
  intro l
  induction l with
  | nil => intro _; rfl
  | cons ic rest ih =>
    intro hall
    rcases ic with ⟨i, c⟩
    have hsome := hall (i, c) (List.mem_cons_self _ _)
    simp only [embedLoop]
    cases hcall : embed i c.text with
    | some v =>
      rw [List.map_cons, List.map_cons]
      rw [ih (fun jc hj => hall jc (List.mem_cons_of_mem _ hj))]
    | none => rw [hcall] at hsome; simp at hsome

/-- C3 amended: `get_chunks_df` always returns a document's chunk rows in
strictly increasing sequence-index order (given the UNIQUE
`(document_id, chunk_id)` key, expressed as distinct ids among the
document's rows), regardless of insertion order; and when every per-chunk
embedding call succeeds during ingestion of a document with no
pre-existing chunk rows, the returned sequence indices are exactly
`0..N-1`.  (When some embedding calls fail the surviving chunks keep
their original indices, leaving gaps - see the counterexample.) -/
theorem C3_amended :
    (∀ (db : DB) (doc_id : Nat),
      (((db.chunks.filter fun r => r.document_id = doc_id).map fun r => r.chunk_id).Nodup) →
      (get_chunks_df db doc_id).Pairwise (fun a b => a.chunk_id < b.chunk_id)) ∧
    (∀ (st : PState) (fs : String → Option String) (loadPdf : String → String)
        (embed : Nat → String → Option (List ℚ)) (job : Job) (bytes : String),
      fs job.file_path = some bytes →
      loadPdf bytes ≠ "" →
      st.db.chunks.filter (fun r => r.document_id = job.document_id) = [] →
      (∀ ic ∈ (chunk_text (loadPdf bytes) none none).enum, (embed ic.1 ic.2.text).isSome) →
      chunk_text (loadPdf bytes) none none ≠ [] →
      ((get_chunks_df (process_job st fs loadPdf embed job).1.db job.document_id).map
          fun r => r.chunk_id)
        = List.range (chunk_text (loadPdf bytes) none none).length) := by
  constructor
  · intro db doc_id hnd
    have hperm := sortByChunkId_perm (db.chunks.filter fun r => r.document_id = doc_id)
    have hle := sortByChunkId_pairwise (db.chunks.filter fun r => r.document_id = doc_id)
    have hnd' : (((sortByChunkId (db.chunks.filter fun r => r.document_id = doc_id)).map
        fun r => r.chunk_id).Nodup) :=
      ((hperm.map fun r => r.chunk_id).nodup_iff).mpr hnd
    exact pairwise_le_nodup_lt _ hle hnd'
  · intro st fs loadPdf embed job bytes hfs hne hclean hall hchunks
    have hids : ((chunk_text (loadPdf bytes) none none).enum.map fun ic => ic.2.chunk_id)
        = ((chunk_text (loadPdf bytes) none none).map fun c => c.chunk_id) := by
      rw [show (fun ic : Nat × ChunkRec => ic.2.chunk_id)
          = (fun c : ChunkRec => c.chunk_id) ∘ Prod.snd from rfl]
      rw [← List.map_map, List.enum_map_snd]
    have hsurv : ((embedLoop embed job.document_id
        (chunk_text (loadPdf bytes) none none).length
        (chunk_text (loadPdf bytes) none none).enum).1.map fun c => c.chunk.chunk_id)
        = List.range (chunk_text (loadPdf bytes) none none).length := by
      rw [embedLoop_ids_all_some embed job.document_id _ _ hall, hids, chunk_text_ids]
    have hne2 : (embedLoop embed job.document_id
        (chunk_text (loadPdf bytes) none none).length
        (chunk_text (loadPdf bytes) none none).enum).1 ≠ [] := by
      intro h0
      rw [h0] at hsurv
      have : (chunk_text (loadPdf bytes) none none).length = 0 := by
        by_contra hlen
        have := List.range_eq_nil.mp hsurv.symm
        omega
      exact hchunks (List.length_eq_zero.mp this)
    have hnodup : ((embedLoop embed job.document_id
        (chunk_text (loadPdf bytes) none none).length
        (chunk_text (loadPdf bytes) none none).enum).1.map
          fun c => c.chunk.chunk_id).Nodup := by
      rw [hsurv]; exact List.nodup_range _
    have hclash : ∀ r ∈ st.db.chunks, r.document_id = job.document_id →
        ¬ r.chunk_id ∈ ((embedLoop embed job.document_id
          (chunk_text (loadPdf bytes) none none).length
          (chunk_text (loadPdf bytes) none none).enum).1.map
            fun c => c.chunk.chunk_id) := by
      intro r hr hrd
      have hmem : r ∈ st.db.chunks.filter (fun r => r.document_id = job.document_id) :=
        List.mem_filter.mpr ⟨hr, by simp [hrd]⟩
      rw [hclean] at hmem
      exact absurd hmem (List.not_mem_nil r)
    simp only [process_job, hfs, if_neg hne, if_neg hne2]
    simp only [get_chunks_df, update_document_status, add_chunks]
    rw [foldl_insert_filter _ _ _ hnodup hclash, hclean]
    rw [List.nil_append]
    have hrows_ids : (((embedLoop embed job.document_id
        (chunk_text (loadPdf bytes) none none).length
        (chunk_text (loadPdf bytes) none none).enum).1.map
          (chunkToRow job.document_id)).map fun r => r.chunk_id)
        = List.range (chunk_text (loadPdf bytes) none none).length := by
      rw [List.map_map]
      rw [show ((fun r : ChunkRow => r.chunk_id) ∘ chunkToRow job.document_id)
          = (fun c : EmbChunk => c.chunk.chunk_id) from rfl]
      exact hsurv
    have hrows_pw : ((embedLoop embed job.document_id
        (chunk_text (loadPdf bytes) none none).length
        (chunk_text (loadPdf bytes) none none).enum).1.map
          (chunkToRow job.document_id)).Pairwise (fun a b => a.chunk_id ≤ b.chunk_id) := by
      have h1 : (((embedLoop embed job.document_id
          (chunk_text (loadPdf bytes) none none).length
          (chunk_text (loadPdf bytes) none none).enum).1.map
            (chunkToRow job.document_id)).map fun r => r.chunk_id).Pairwise (· ≤ ·) := by
        rw [hrows_ids]
        exact (List.pairwise_lt_range _).imp (fun h => Nat.le_of_lt h)
      exact List.pairwise_map.mp h1
    rw [sortByChunkId_sorted_id _ hrows_pw]
    exact hrows_ids

/-- C3 amended, witnessed: a one-chunk document, every embedding call
succeeding, yields sequence indices exactly `range 1 = [0]`. -/
theorem C3_witness :
    ("T" : String) ≠ "" ∧
    ((get_chunks_df (process_job
        ⟨⟨[⟨1, "f", "T", "f.pdf", 1, 1, none, "pending", none⟩], [], 2⟩, [], []⟩
        (fun p => if p = "f.pdf" then some "T" else none) (fun b => b)
        (fun _ _ => some [1]) ⟨1, "f.pdf", "f"⟩).1.db 1).map fun r => r.chunk_id)
      = List.range (chunk_text "T" none none).length :=
  ⟨by decide,
    C3_amended.2 ⟨⟨[⟨1, "f", "T", "f.pdf", 1, 1, none, "pending", none⟩], [], 2⟩, [], []⟩
      (fun p => if p = "f.pdf" then some "T" else none) (fun b => b)
      (fun _ _ => some [1]) ⟨1, "f.pdf", "f"⟩ "T"
      (by decide) (by decide) (by decide) (by decide) (by decide)⟩

/-- Token counts (character counts) are additive over concatenation. -/
theorem tok_append (a b : String) : tok (a ++ b) = tok a + tok b := by
  show (a.data ++ b.data).length = a.data.length + b.data.length
  exact List.length_append _ _

/-- The counted cost of a chunk's context block: header + text + the
three formatting newlines. -/
theorem tok_chunkBlock (c : RChunk) :
    tok (chunkBlock c) = tok (chunkHeader c) + tok c.text + 3 := by
  simp only [chunkBlock, tok_append]
  have h1 : tok "\n" = 1 := rfl
  have h2 : tok "\n\n" = 2 := rfl
  omega

/-- Counted cost of the truncated block kept by the packing loop. -/
theorem tok_block_truncated (c : RChunk) (t : String) :
    tok (chunkBlock { c with text := t ++ "... [truncated]" })
      = tok (chunkHeader c) + (tok t + 15) + 3 := by
  rw [tok_chunkBlock]
  have hh : chunkHeader { c with text := t ++ "... [truncated]" } = chunkHeader c := rfl
  rw [hh]
  show _ + tok (t ++ "... [truncated]") + _ = _
  rw [tok_append]
  have h15 : tok "... [truncated]" = 15 := rfl
  omega

/-- The truncation loop brings the text within the remaining budget
whenever that budget exceeds 200 tokens. -/
theorem truncateLoop_le_aux :
    ∀ (n : Nat) (text : String), tok text ≤ n → ∀ remaining : Int, remaining > 200 →
      (tok (truncateLoop text remaining) : Int) ≤ remaining := by
  intro n
  induction n with
  | zero =>
    intro text h r hr
    rw [truncateLoop]
    split
    · rename_i hcond
      omega
    · omega
  | succ n ih =>
    intro text h r hr
    rw [truncateLoop]
    split
    · rename_i hcond
      have hsl : tok (pySlice text (tok text * 4 / 5)) = min (tok text * 4 / 5) (tok text) := by
        show (List.take (tok text * 4 / 5) text.data).length = _
        simp [tok, List.length_take]
      exact ih _ (by omega) r hr
    · rename_i hcond
      rw [Decidable.not_and_iff_or_not] at hcond
      rcases hcond with h1 | h2
      · omega
      · omega

/-- Wrapper for `truncateLoop_le_aux` at the text's own size. -/
theorem truncateLoop_le (text : String) (remaining : Int) (h : remaining > 200) :
    (tok (truncateLoop text remaining) : Int) ≤ remaining :=
  truncateLoop_le_aux (tok text) text (Nat.le_refl _) remaining h

/-- The packing loop never exceeds the available budget: starting from a
consumed count within budget, the total counted cost of what it keeps
stays within budget, also through the truncation branch. -/
theorem limitLoop_tok_sum (available : Int) :
    ∀ (l : List RChunk) (current : Nat), (current : Int) ≤ available →
      (current : Int) + (((limitLoop available l current).map fun c => tok (chunkBlock c)).sum : Int)
        ≤ available := by
  intro l
  induction l with
  | nil => intro current h; simpa using h
  | cons c rest ih =>
    intro current h
    simp only [limitLoop]
    split
    · rename_i hfit
      have := ih (current + tok (chunkBlock c)) (by exact_mod_cast hfit)
      rw [List.map_cons, List.sum_cons]
      push_cast at this ⊢
      omega
    · rename_i hnofit
      split
      · rename_i hroom
        rw [List.map_cons, List.map_nil, List.sum_cons, List.sum_nil, tok_block_truncated]
        have htr := truncateLoop_le c.text _ hroom
        push_cast
        omega
      · simpa using h

/-- The built context string never counts more than the per-chunk blocks
the packing loop accounted for. -/
theorem build_context_le :
    ∀ l : List RChunk, tok (build_context l) ≤ (l.map fun c => tok (chunkBlock c)).sum := by
  intro l
  induction l with
  | nil => simp [build_context, pyJoin, tok]
  | cons c rest ih =>
    cases rest with
    | nil =>
      simp only [build_context, List.map_cons, List.map_nil, pyJoin, List.sum_cons,
        List.sum_nil, tok_append, tok_chunkBlock]
      have h1 : tok "\n" = 1 := rfl
      omega
    | cons c' rest' =>
      simp only [build_context, List.map_cons, pyJoin, List.sum_cons, tok_append,
        tok_chunkBlock] at ih ⊢
      have h1 : tok "\n" = 1 := rfl
      omega

/-- C4 amended: whenever the fixed overhead - grounding instruction,
query and the 100-token formatting allowance - itself fits inside
`self.max_context_tokens = MAX_CONTEXT_TOKENS - 2000`, the packed
context (including a truncated final chunk) satisfies the budget
invariant `contextTokens + 2000 + overhead ≤ MAX_CONTEXT_TOKENS`.  (An
oversized query violates the unconditional bound - see the
counterexample.) -/
theorem C4_amended (chunks : List RChunk) (query : String)
    (h : ((tok systemPromptRAG + tok query + 100 : Nat) : Int) ≤ rag_max_context_tokens) :
    (tok (build_context (limit_context_tokens chunks query)) : Int) + 2000
        + ((tok systemPromptRAG + tok query + 100 : Nat) : Int)
      ≤ (MAX_CONTEXT_TOKENS : Int) := by
  have hsum := limitLoop_tok_sum
    (rag_max_context_tokens - ((tok systemPromptRAG + tok query + 100 : Nat) : Int))
    chunks 0 (by push_cast; omega)
  have hbc := build_context_le (limitLoop
    (rag_max_context_tokens - ((tok systemPromptRAG + tok query + 100 : Nat) : Int))
    chunks 0)
  have hlim : limit_context_tokens chunks query
      = limitLoop (rag_max_context_tokens - ((tok systemPromptRAG + tok query + 100 : Nat) : Int))
          chunks 0 := rfl
  rw [hlim]
  have hmax : rag_max_context_tokens = 6000 := by
    norm_num [rag_max_context_tokens, MAX_CONTEXT_TOKENS]
  have hM : (MAX_CONTEXT_TOKENS : Int) = 8000 := by norm_num [MAX_CONTEXT_TOKENS]
  rw [hmax] at hsum hbc ⊢
  rw [hM]
  omega

/-- C4 amended, witnessed: a small chunk and a two-character query fit
the overhead condition and the packed-context bound. -/
theorem C4_witness :
    ((tok systemPromptRAG + tok "hi" + 100 : Nat) : Int) ≤ rag_max_context_tokens ∧
    (tok (build_context (limit_context_tokens [⟨0, "hello", 1, 7⟩] "hi")) : Int) + 2000
        + ((tok systemPromptRAG + tok "hi" + 100 : Nat) : Int)
      ≤ (MAX_CONTEXT_TOKENS : Int) :=
  ⟨by decide, C4_amended [⟨0, "hello", 1, 7⟩] "hi" (by decide)⟩

/-- Inserting an index into the ascending argsort accumulator permutes
cons. -/
theorem insIdxAsc_perm (sims : List ℚ) (i : Nat) :
    ∀ acc : List Nat, (insIdxAsc sims i acc).Perm (i :: acc) := by
  intro acc
  induction acc with
  | nil => simp [insIdxAsc]
  | cons j js ih =>
    simp only [insIdxAsc]
    split
    · exact List.Perm.refl _
    · exact (ih.cons j).trans (List.Perm.swap i j js)

/-- Inserting an index larger than everything in the accumulator keeps
the accumulator sorted in the ascending (similarity, position) order
that models stable `np.argsort`. -/
theorem insIdxAsc_pairwise (sims : List ℚ) (i : Nat) :
    ∀ acc : List Nat,
      acc.Pairwise (fun a b => sims.getD a 0 < sims.getD b 0 ∨
        (sims.getD a 0 = sims.getD b 0 ∧ a < b)) →
      (∀ j ∈ acc, j < i) →
      (insIdxAsc sims i acc).Pairwise (fun a b => sims.getD a 0 < sims.getD b 0 ∨
        (sims.getD a 0 = sims.getD b 0 ∧ a < b)) := by
  intro acc
  induction acc with
  | nil => intro _ _; simp [insIdxAsc]
  | cons j js ih =>
    intro hpw hlt
    rcases List.pairwise_cons.mp hpw with ⟨hj, hjs⟩
    simp only [insIdxAsc]
    split
    · rename_i hsij
      rw [List.pairwise_cons]
      constructor
      · intro b hb
        rcases List.mem_cons.mp hb with h1 | h2
        · subst h1; exact Or.inl hsij
        · rcases hj b h2 with h | h
          · exact Or.inl (lt_trans hsij h)
          · exact Or.inl (h.1 ▸ hsij)
      · exact hpw
    · rename_i hsij
      rw [List.pairwise_cons]
      constructor
      · intro b hb
        have hb' := (insIdxAsc_perm sims i js).mem_iff.mp hb
        rcases List.mem_cons.mp hb' with h1 | h2
        · subst h1
          rcases lt_or_eq_of_le (not_lt.mp hsij) with h | h
          · exact Or.inl h
          · exact Or.inr ⟨h, hlt j (List.mem_cons_self _ _)⟩
        · exact hj b h2
      · exact ih hjs (fun j hj => hlt j (List.mem_cons_of_mem _ hj))

/-- The argsort fold over a strictly increasing index list: sortedness
and permutation. -/
theorem foldl_insIdx (sims : List ℚ) :
    ∀ (l : List Nat) (acc : List Nat),
      acc.Pairwise (fun a b => sims.getD a 0 < sims.getD b 0 ∨
        (sims.getD a 0 = sims.getD b 0 ∧ a < b)) →
      (∀ j ∈ acc, ∀ i ∈ l, j < i) →
      l.Pairwise (· < ·) →
      ((l.foldl (fun a i => insIdxAsc sims i a) acc).Pairwise
          (fun a b => sims.getD a 0 < sims.getD b 0 ∨
            (sims.getD a 0 = sims.getD b 0 ∧ a < b)) ∧
        (l.foldl (fun a i => insIdxAsc sims i a) acc).Perm (acc ++ l)) := by
  intro l
  induction l with
  | nil => intro acc h _ _; exact ⟨h, by simp⟩
  | cons i xs ih =>
    intro acc hpw hcross hl
    rcases List.pairwise_cons.mp hl with ⟨hi, hxs⟩
    have hstep := insIdxAsc_pairwise sims i acc hpw
      (fun j hj => hcross j hj i (List.mem_cons_self _ _))
    have hcross' : ∀ j ∈ insIdxAsc sims i acc, ∀ x ∈ xs, j < x := by
      intro j hj x hx
      rcases List.mem_cons.mp ((insIdxAsc_perm sims i acc).mem_iff.mp hj) with h1 | h2
      · subst h1; exact hi x hx
      · exact hcross j h2 x (List.mem_cons_of_mem _ hx)
    rcases ih (insIdxAsc sims i acc) hstep hcross' hxs with ⟨hs, hp⟩
    refine ⟨hs, ?_⟩
    refine hp.trans ?_
    refine (List.Perm.append_right xs (insIdxAsc_perm sims i acc)).trans ?_
    exact List.perm_middle.symm

/-- `argsortAsc` is sorted by ascending (similarity, position) and
permutes `range n`. -/
theorem argsortAsc_spec (sims : List ℚ) :
    (argsortAsc sims).Pairwise (fun a b => sims.getD a 0 < sims.getD b 0 ∨
      (sims.getD a 0 = sims.getD b 0 ∧ a < b)) ∧
    (argsortAsc sims).Perm (List.range sims.length) := by
  have := foldl_insIdx sims (List.range sims.length) []
    List.Pairwise.nil (by intro j hj; simp at hj) (List.pairwise_lt_range _)
  rcases this with ⟨h1, h2⟩
  exact ⟨h1, by simpa using h2⟩

/-- Top-K validity of `topIndices`: every index it keeps scores at least
as high as every valid index it rejects. -/
theorem topIndices_topk (sims : List ℚ) (k : Nat) :
    ∀ i ∈ topIndices sims k, ∀ j, j < sims.length → j ∉ topIndices sims k →
      sims.getD j 0 ≤ sims.getD i 0 := by
  intro i hi j hj hnj
  rcases argsortAsc_spec sims with ⟨hpw, hperm⟩
  have hrev : (argsortAsc sims).reverse.Pairwise
      (fun a b => sims.getD b 0 < sims.getD a 0 ∨
        (sims.getD b 0 = sims.getD a 0 ∧ b < a)) :=
    List.pairwise_reverse.mpr hpw
  have hsplit : (argsortAsc sims).reverse
      = topIndices sims k ++ (argsortAsc sims).reverse.drop k :=
    (List.take_append_drop k _).symm
  have hj' : j ∈ (argsortAsc sims).reverse := by
    rw [List.mem_reverse]
    exact hperm.mem_iff.mpr (List.mem_range.mpr hj)
  rw [hsplit] at hj' hrev
  rcases List.mem_append.mp hj' with h1 | h2
  · exact absurd h1 hnj
  · rcases (List.pairwise_append.mp hrev).2.2 i hi j h2 with h | h
    · exact le_of_lt h
    · exact le_of_eq h.1

/-- Stable descending insertion permutes cons. -/
theorem insSimDesc_perm (x : RChunk) :
    ∀ l : List RChunk, (insSimDesc x l).Perm (x :: l) := by
  intro l
  induction l with
  | nil => simp [insSimDesc]
  | cons y ys ih =>
    simp only [insSimDesc]
    split
    · exact List.Perm.refl _
    · exact (ih.cons y).trans (List.Perm.swap x y ys)

/-- Stable descending insertion of a chunk whose sequence index exceeds
everything already sorted keeps the (descending similarity, ascending
index) order. -/
theorem insSimDesc_pairwise (x : RChunk) :
    ∀ l : List RChunk,
      l.Pairwise (fun a b => b.similarity < a.similarity ∨
        (a.similarity = b.similarity ∧ a.chunk_id < b.chunk_id)) →
      (∀ y ∈ l, y.chunk_id < x.chunk_id) →
      (insSimDesc x l).Pairwise (fun a b => b.similarity < a.similarity ∨
        (a.similarity = b.similarity ∧ a.chunk_id < b.chunk_id)) := by
  intro l
  induction l with
  | nil => intro _ _; simp [insSimDesc]
  | cons y ys ih =>
    intro hpw hlt
    rcases List.pairwise_cons.mp hpw with ⟨hy, hys⟩
    simp only [insSimDesc]
    split
    · rename_i hxy
      rw [List.pairwise_cons]
      constructor
      · intro b hb
        rcases List.mem_cons.mp hb with h1 | h2
        · subst h1; exact Or.inl hxy
        · rcases hy b h2 with h | h
          · exact Or.inl (lt_trans h hxy)
          · exact Or.inl (h.1 ▸ hxy)
      · exact hpw
    · rename_i hxy
      rw [List.pairwise_cons]
      constructor
      · intro b hb
        rcases List.mem_cons.mp ((insSimDesc_perm x ys).mem_iff.mp hb) with h1 | h2
        · subst h1
          rcases lt_or_eq_of_le (not_lt.mp hxy) with h | h
          · exact Or.inl h
          · exact Or.inr ⟨h.symm, hlt y (List.mem_cons_self _ _)⟩
        · exact hy b h2
      · exact ih hys (fun y hy => hlt y (List.mem_cons_of_mem _ hy))

/-- The stable descending sort fold over an index-ascending list:
sortedness (with ties broken by lower index) and permutation. -/
theorem foldl_insSim :
    ∀ (l acc : List RChunk),
      acc.Pairwise (fun a b => b.similarity < a.similarity ∨
        (a.similarity = b.similarity ∧ a.chunk_id < b.chunk_id)) →
      (∀ y ∈ acc, ∀ x ∈ l, y.chunk_id < x.chunk_id) →
      l.Pairwise (fun a b => a.chunk_id < b.chunk_id) →
      ((l.foldl (fun a x => insSimDesc x a) acc).Pairwise
          (fun a b => b.similarity < a.similarity ∨
            (a.similarity = b.similarity ∧ a.chunk_id < b.chunk_id)) ∧
        (l.foldl (fun a x => insSimDesc x a) acc).Perm (acc ++ l)) := by
  intro l
  induction l with
  | nil => intro acc h _ _; exact ⟨h, by simp⟩
  | cons x xs ih =>
    intro acc hpw hcross hl
    rcases List.pairwise_cons.mp hl with ⟨hx, hxs⟩
    have hstep := insSimDesc_pairwise x acc hpw
      (fun y hy => hcross y hy x (List.mem_cons_self _ _))
    have hcross' : ∀ y ∈ insSimDesc x acc, ∀ z ∈ xs, y.chunk_id < z.chunk_id := by
      intro y hy z hz
      rcases List.mem_cons.mp ((insSimDesc_perm x acc).mem_iff.mp hy) with h1 | h2
      · subst h1; exact hx z hz
      · exact hcross y h2 z (List.mem_cons_of_mem _ hz)
    rcases ih (insSimDesc x acc) hstep hcross' hxs with ⟨hs, hp⟩
    refine ⟨hs, ?_⟩
    refine hp.trans ?_
    refine (List.Perm.append_right xs (insSimDesc_perm x acc)).trans ?_
    exact List.perm_middle.symm

/-- `pySortSimDesc` on an index-ascending candidate list: the result is
descending by similarity with ties by lower sequence index, and is a
permutation of the input. -/
theorem pySortSimDesc_spec (rows : List RChunk)
    (h : rows.Pairwise fun a b => a.chunk_id < b.chunk_id) :
    (pySortSimDesc rows).Pairwise (fun a b => b.similarity < a.similarity ∨
      (a.similarity = b.similarity ∧ a.chunk_id < b.chunk_id)) ∧
    (pySortSimDesc rows).Perm rows := by
  have := foldl_insSim rows [] List.Pairwise.nil (by intro y hy; simp at hy) h
  rcases this with ⟨h1, h2⟩
  exact ⟨h1, by simpa using h2⟩

/-- C6 amended: `find_similar_chunks`' ranking step selects a valid top-K
set - every selected position scores at least as high as every rejected
valid position - though ties at the boundary fall to the higher position
(see the counterexample); the final neighbor-expanded, deduplicated
result is sorted descending by similarity with ties broken by lower
sequence index; and every returned entry, neighbors included, carries the
independently computed similarity score of its own position, copied from
the similarity array. -/
theorem C6_amended (sims : List ℚ) (df : List DfRow) (top_k : Nat) (inc : Bool)
    (hdf : df.Pairwise fun a b => a.chunk_id < b.chunk_id) :
    (∀ i ∈ topIndices sims top_k, ∀ j, j < sims.length → j ∉ topIndices sims top_k →
      sims.getD j 0 ≤ sims.getD i 0) ∧
    (find_similar_rank sims df top_k inc).Pairwise
      (fun a b => b.similarity < a.similarity ∨
        (a.similarity = b.similarity ∧ a.chunk_id < b.chunk_id)) ∧
    (∀ r ∈ find_similar_rank sims df top_k inc, ∃ idx, idx < df.length ∧
      r.chunk_id = (df.getD idx ⟨0, "", 0⟩).chunk_id ∧
      r.text = (df.getD idx ⟨0, "", 0⟩).text ∧
      r.similarity = sims.getD idx 0 ∧
      r.token_count = (df.getD idx ⟨0, "", 0⟩).token_count) := by
  have hpos : (sortedSelected df.length (selectedIdxs sims df top_k inc)).Pairwise (· < ·) :=
    List.Pairwise.filter _ (List.pairwise_lt_range df.length)
  have hposmem : ∀ i ∈ sortedSelected df.length (selectedIdxs sims df top_k inc),
      i < df.length := by
    intro i hi
    exact List.mem_range.mp (List.mem_filter.mp hi).1
  have hdf' := List.pairwise_iff_getElem.mp hdf
  have hrows : ((sortedSelected df.length (selectedIdxs sims df top_k inc)).map fun idx =>
      ({ chunk_id := (df.getD idx ⟨0, "", 0⟩).chunk_id
         text := (df.getD idx ⟨0, "", 0⟩).text
         similarity := sims.getD idx 0
         token_count := (df.getD idx ⟨0, "", 0⟩).token_count } : RChunk)).Pairwise
      (fun a b => a.chunk_id < b.chunk_id) := by
    rw [List.pairwise_map]
    refine List.Pairwise.imp_of_mem ?_ hpos
    intro a b ha hb hab
    have ha' := hposmem a ha
    have hb' := hposmem b hb
    show (df.getD a ⟨0, "", 0⟩).chunk_id < (df.getD b ⟨0, "", 0⟩).chunk_id
    rw [List.getD_eq_getElem df _ ha', List.getD_eq_getElem df _ hb']
    exact hdf' a b ha' hb' hab
  have heq : find_similar_rank sims df top_k inc
      = pySortSimDesc ((sortedSelected df.length (selectedIdxs sims df top_k inc)).map fun idx =>
      ({ chunk_id := (df.getD idx ⟨0, "", 0⟩).chunk_id
         text := (df.getD idx ⟨0, "", 0⟩).text
         similarity := sims.getD idx 0
         token_count := (df.getD idx ⟨0, "", 0⟩).token_count } : RChunk)) := rfl
  rcases pySortSimDesc_spec _ hrows with ⟨hs, hp⟩
  refine ⟨topIndices_topk sims top_k, ?_, ?_⟩
  · rw [heq]
    exact hs
  · intro r hr
    rw [heq] at hr
    have hr' := hp.mem_iff.mp hr
    rcases List.mem_map.mp hr' with ⟨idx, hidx, hmk⟩
    subst hmk
    exact ⟨idx, hposmem idx hidx, rfl, rfl, rfl, rfl⟩

/-- C6 amended, witnessed on a two-chunk frame with distinct scores. -/
theorem C6_witness :
    ([(⟨0, "a", 1⟩ : DfRow), ⟨1, "b", 2⟩].Pairwise fun a b => a.chunk_id < b.chunk_id) ∧
    ((∀ i ∈ topIndices [(3 : ℚ), 5] 1, ∀ j, j < ([(3 : ℚ), 5]).length →
        j ∉ topIndices [(3 : ℚ), 5] 1 →
        ([(3 : ℚ), 5]).getD j 0 ≤ ([(3 : ℚ), 5]).getD i 0) ∧
      (find_similar_rank [(3 : ℚ), 5] [⟨0, "a", 1⟩, ⟨1, "b", 2⟩] 1 true).Pairwise
        (fun a b => b.similarity < a.similarity ∨
          (a.similarity = b.similarity ∧ a.chunk_id < b.chunk_id)) ∧
      (∀ r ∈ find_similar_rank [(3 : ℚ), 5] [⟨0, "a", 1⟩, ⟨1, "b", 2⟩] 1 true,
        ∃ idx, idx < ([(⟨0, "a", 1⟩ : DfRow), ⟨1, "b", 2⟩]).length ∧
        r.chunk_id = (([(⟨0, "a", 1⟩ : DfRow), ⟨1, "b", 2⟩]).getD idx ⟨0, "", 0⟩).chunk_id ∧
        r.text = (([(⟨0, "a", 1⟩ : DfRow), ⟨1, "b", 2⟩]).getD idx ⟨0, "", 0⟩).text ∧
        r.similarity = ([(3 : ℚ), 5]).getD idx 0 ∧
        r.token_count = (([(⟨0, "a", 1⟩ : DfRow), ⟨1, "b", 2⟩]).getD idx ⟨0, "", 0⟩).token_count)) :=
  ⟨by decide, C6_amended [(3 : ℚ), 5] [⟨0, "a", 1⟩, ⟨1, "b", 2⟩] 1 true (by decide)⟩
